import Mathlib

/-!
Verification of the cugnss-python GPS software receiver against its
natural-language specification.  Each Python routine that a claim touches is
shallowly embedded as a Lean definition over real and complex numbers
(floating point is modelled by exact real arithmetic, numpy arrays by lists
or index functions), and the claims are settled as theorems about those
definitions.
-/

namespace CuGnss

open Real

open scoped Matrix

/-! ## Shared numpy-style helpers -/

/-- Mean of a list, as numpy computes it (sum divided by length; the empty
list gives 0 because division by zero is 0 in Lean). -/
noncomputable def npMean (xs : List ℝ) : ℝ := xs.sum / xs.length

/-- Population variance of a list (numpy var with ddof zero). -/
noncomputable def npVar (xs : List ℝ) : ℝ :=
  ((xs.map (fun z => (z - npMean xs) ^ 2)).sum) / xs.length

/-! ## Common/CNoVSM.py : cno_vsm -/

/-- Elementwise power Z = I**2 + Q**2 from CNoVSM.py. -/
def vsmZ (Ip Qp : List ℝ) : List ℝ := List.zipWith (fun a b => a ^ 2 + b ^ 2) Ip Qp

/-- Pav = sqrt(Zm**2 - Zv) from CNoVSM.py (definable for every input since
Real.sqrt of a negative number is 0; the code only uses it when positive). -/
noncomputable def vsmPav (Ip Qp : List ℝ) : ℝ :=
  Real.sqrt ((npMean (vsmZ Ip Qp)) ^ 2 - npVar (vsmZ Ip Qp))

/-- Nv = 0.5 * (Zm - Pav) from CNoVSM.py. -/
noncomputable def vsmNv (Ip Qp : List ℝ) : ℝ :=
  0.5 * (npMean (vsmZ Ip Qp) - vsmPav Ip Qp)

/-- Embedding of cno_vsm from Common/CNoVSM.py.  The Python float nan results
are modelled by none. -/
noncomputable def cno_vsm (Ip Qp : List ℝ) (T : ℝ) : Option ℝ :=
  if (npMean (vsmZ Ip Qp)) ^ 2 - npVar (vsmZ Ip Qp) ≤ 0 then none
  else if vsmNv Ip Qp ≤ 0 then none
  else some (10 * Real.logb 10 |(1 / T) * vsmPav Ip Qp / (2 * vsmNv Ip Qp)|)

/-! ## Common/leastSquarePos.py : DOP computation (lines 99 to 107) -/

/-- The five DOP values computed from the cofactor matrix Q, exactly the
five lines of Common/leastSquarePos.py after the iteration loop:
GDOP, PDOP, HDOP, VDOP, TDOP. -/
noncomputable def dopOf (Q : Matrix (Fin 4) (Fin 4) ℝ) : Fin 5 → ℝ := fun j =>
  if j = 0 then Real.sqrt (Matrix.trace Q)
  else if j = 1 then Real.sqrt (Q 0 0 + Q 1 1 + Q 2 2)
  else if j = 2 then Real.sqrt (Q 0 0 + Q 1 1)
  else if j = 3 then Real.sqrt (Q 2 2)
  else Real.sqrt (Q 3 3)

/-- Q = inv(A.T @ A) from Common/leastSquarePos.py line 100. -/
noncomputable def lsqQ {n : ℕ} (A : Matrix (Fin n) (Fin 4) ℝ) :
    Matrix (Fin 4) (Fin 4) ℝ := (Aᵀ * A)⁻¹

/-- The DOP vector returned by least_square_pos for a geometry matrix A. -/
noncomputable def lsqDop {n : ℕ} (A : Matrix (Fin n) (Fin 4) ℝ) : Fin 5 → ℝ :=
  dopOf (lsqQ A)

/-! ## Include/preRun.py : pre_run -/

/-- One row of the acqResults table consumed by pre_run. -/
structure AcqEntry where
  prn : ℤ
  carrFreq : ℝ
  codePhase : ℤ
  peakMetric : ℝ

/-- A tracking channel record produced by pre_run; status is the Python
character, with T for Tracking and the dash for Off. -/
structure Channel where
  prn : ℤ
  acquiredFreq : ℝ
  codePhase : ℤ
  status : Char

/-- The default channel template of preRun.py (PRN 0, status Off). -/
def channelTemplate : Channel := ⟨0, 0, 0, '-'⟩

/-- Comparator giving the descending-by-peakMetric order used by pre_run
(np.argsort of peakMetric followed by reversal). -/
noncomputable def preRunDescending (a b : AcqEntry) : Bool :=
  decide (b.peakMetric ≤ a.peakMetric)

/-- The PRN-in-1..32 mask of preRun.py (np.isin with np.arange(1, 33)). -/
def preRunInRange (en : AcqEntry) : Bool :=
  decide (1 ≤ en.prn) && decide (en.prn ≤ 32)

/-- Entries sorted by descending peak metric and then masked to PRNs 1..32,
exactly as preRun.py orders and filters the acquisition table. -/
noncomputable def preRunKept (acq : List AcqEntry) : List AcqEntry :=
  (acq.mergeSort preRunDescending).filter preRunInRange

/-- Channel created for one kept acquisition row (status T = Tracking). -/
def preRunChannel (en : AcqEntry) : Channel :=
  ⟨en.prn, en.carrFreq, en.codePhase, 'T'⟩

/-- Embedding of pre_run from Include/preRun.py: take the strongest
numberOfChannels kept rows, then pad with the default template. -/
noncomputable def pre_run (acq : List AcqEntry) (numberOfChannels : ℕ) :
    List Channel :=
  ((preRunKept acq).take numberOfChannels).map preRunChannel ++
    List.replicate
      (numberOfChannels - ((preRunKept acq).take numberOfChannels).length)
      channelTemplate

/-! ## Include/eph_structure_init.py and the decoded ephemeris record -/

/-- The ephemeris record of eph_structure_init.py.  Scalars initialized to
the empty list in Python are modelled as Option values (none = empty list,
still a present dictionary key). -/
structure EphRec where
  idValid : List ℕ
  PRN : Option ℤ
  weekNumber : Option ℤ
  accuracy : Option ℤ
  health : Option ℤ
  T_GD : Option ℝ
  IODC : Option ℤ
  t_oc : Option ℤ
  a_f2 : Option ℝ
  a_f1 : Option ℝ
  a_f0 : Option ℝ
  IODE_sf2 : Option ℤ
  C_rs : Option ℝ
  deltan : Option ℝ
  M_0 : Option ℝ
  C_uc : Option ℝ
  e : Option ℝ
  C_us : Option ℝ
  sqrtA : Option ℝ
  t_oe : Option ℤ
  C_ic : Option ℝ
  omega_0 : Option ℝ
  C_is : Option ℝ
  i_0 : Option ℝ
  C_rc : Option ℝ
  omega : Option ℝ
  omegaDot : Option ℝ
  IODE_sf3 : Option ℤ
  iDot : Option ℝ
  TOW : Option ℤ

/-- The initial ephemeris structure (all scalars absent, idValid all zero). -/
def ephInit : EphRec :=
  ⟨[0, 0, 0, 0, 0], none, none, none, none, none, none, none, none, none,
    none, none, none, none, none, none, none, none, none, none, none, none,
    none, none, none, none, none, none, none, none⟩

/-! ## Include/postNavigation.py : ephemeris usability filter (lines 82-99) -/

/-- Python truthiness of a decoded scalar: an empty list (none) is falsy and
an integer is truthy exactly when it is nonzero. -/
def pythonTruthyInt : Option ℤ → Bool
  | none => false
  | some n => n != 0

/-- The retention test of postNavigation.py line 97:
decoded.get(IODC) and decoded.get(IODE_sf2) and decoded.get(IODE_sf3) and
decoded.get(health, 0) == 0, under Python truthiness. -/
def ephUsableCode (r : EphRec) : Bool :=
  pythonTruthyInt r.IODC && pythonTruthyInt r.IODE_sf2 &&
    pythonTruthyInt r.IODE_sf3 && (r.health == some 0)

/-- The spec predicate for a usable ephemeris: IODC, IODE_sf2, IODE_sf3 all
present and health equal to 0.  Stated from the spec wording for comparison
with the code behaviour. -/
def ephUsableSpec (r : EphRec) : Prop :=
  r.IODC.isSome ∧ r.IODE_sf2.isSome ∧ r.IODE_sf3.isSome ∧ r.health = some 0

/-- The per-channel data postNavigation reads when building the channel
lists: the PRN of the channel and its tracking status character. -/
structure TrackStatusRec where
  PRN : ℕ
  status : Char

/-- The initial active channel list of postNavigation.py line 82: indices of
channels whose status differs from the dash. -/
def postNavInitialActive (trk : List TrackStatusRec) : List ℕ :=
  (List.range trk.length).filter (fun i => (trk.getD i ⟨0, '-'⟩).status != '-')

/-- The active channel list after the ephemeris decoding loop of
postNavigation.py lines 88-99.  Removing failing channels from a copy of the
list while iterating it equals filtering; decoded gives the record returned
by NAVdecoding for each channel. -/
def postNavActive (trk : List TrackStatusRec) (decoded : ℕ → EphRec) :
    List ℕ :=
  (postNavInitialActive trk).filter (fun ch => ephUsableCode (decoded ch))

/-- The decoded record used as the C5 counterexample: all three issue
numbers present, health 0, but IODC decoded as the (legal) value 0. -/
def cexDecoded : EphRec :=
  { ephInit with
    IODC := some 0
    IODE_sf2 := some 1
    IODE_sf3 := some 1
    health := some 0 }

/-! ## Common/togeod.py : togeod -/

/-- Python math.atan2 / np.arctan2, realized through the complex argument. -/
noncomputable def npArctan2 (y x : ℝ) : ℝ := Complex.arg ⟨x, y⟩

/-- The mutable state of the togeod iteration: latitude estimate (radians)
and height estimate. -/
structure GeodState where
  dphi : ℝ
  h : ℝ

/-- Radius of curvature in the prime vertical, togeod.py line 85. -/
noncomputable def togeodNphi (a esq dphi : ℝ) : ℝ :=
  a / Real.sqrt (1 - esq * Real.sin dphi ^ 2)

/-- Residual in P, togeod.py line 88. -/
noncomputable def togeodDP (a esq P : ℝ) (s : GeodState) : ℝ :=
  P - (togeodNphi a esq s.dphi + s.h) * Real.cos s.dphi

/-- Residual in Z, togeod.py line 89. -/
noncomputable def togeodDZ (a esq oneesq Z : ℝ) (s : GeodState) : ℝ :=
  Z - (togeodNphi a esq s.dphi * oneesq + s.h) * Real.sin s.dphi

/-- One pass of the togeod loop body (lines 81-93): update height first,
then latitude using the already-updated height. -/
noncomputable def togeodUpdate (a esq oneesq P Z : ℝ) (s : GeodState) :
    GeodState :=
  let dP := togeodDP a esq P s
  let dZ := togeodDZ a esq oneesq Z s
  let h2 := s.h + (Real.sin s.dphi * dZ + Real.cos s.dphi * dP)
  ⟨s.dphi + (Real.cos s.dphi * dZ - Real.sin s.dphi * dP) /
      (togeodNphi a esq s.dphi + h2), h2⟩

/-- The convergence test of togeod.py line 96: the loop leaves when
dP^2 + dZ^2 is below tolsq = 1e-10 (both residuals taken at the state the
update was computed from). -/
noncomputable def togeodExitTest (a esq oneesq P Z : ℝ) (s : GeodState) :
    Prop :=
  togeodDP a esq P s ^ 2 + togeodDZ a esq oneesq Z s ^ 2 < 1e-10

open scoped Classical in
/-- The fueled togeod iteration; the source runs it with fuel maxit = 10. -/
noncomputable def togeodLoop (a esq oneesq P Z : ℝ) :
    ℕ → GeodState → GeodState
  | 0, s => s
  | n + 1, s =>
    if togeodExitTest a esq oneesq P Z s then togeodUpdate a esq oneesq P Z s
    else togeodLoop a esq oneesq P Z n (togeodUpdate a esq oneesq P Z s)

/-- Square of eccentricity, togeod.py lines 42-45. -/
noncomputable def togeodEsq (finv : ℝ) : ℝ :=
  if finv < 1e-20 then 0 else (2 - 1 / finv) / finv

/-- Distance from the spin axis, togeod.py line 51. -/
noncomputable def togeodP (X Y : ℝ) : ℝ := Real.sqrt (X ^ 2 + Y ^ 2)

/-- Distance from the origin, togeod.py line 63. -/
noncomputable def togeodR (X Y Z : ℝ) : ℝ :=
  Real.sqrt (togeodP X Y ^ 2 + Z ^ 2)

/-- Longitude in degrees, togeod.py lines 54-60. -/
noncomputable def togeodLambda (X Y : ℝ) : ℝ :=
  let d0 := if togeodP X Y > 1e-20 then npArctan2 Y X * (180 / Real.pi) else 0
  if d0 < 0 then d0 + 360 else d0

/-- The sine of the initial latitude guess, togeod.py lines 65-68. -/
noncomputable def togeodSinphi (X Y Z : ℝ) : ℝ :=
  if togeodR X Y Z > 1e-20 then Z / togeodR X Y Z else 0

/-- The initial iteration state of togeod (lines 70-77). -/
noncomputable def togeodInit (a finv X Y Z : ℝ) : GeodState :=
  ⟨Real.arcsin (togeodSinphi X Y Z),
    togeodR X Y Z - a * (1 - togeodSinphi X Y Z ^ 2 / finv)⟩

/-- The loop body of togeod with the derived constants filled in. -/
noncomputable def togeodStep (a finv X Y Z : ℝ) : GeodState → GeodState :=
  togeodUpdate a (togeodEsq finv) (1 - togeodEsq finv) (togeodP X Y) Z

/-- Embedding of togeod from Common/togeod.py: returns latitude (degrees),
longitude (degrees) and height after at most 10 loop passes.  The source
prints a warning on non-convergence but still returns the last state. -/
noncomputable def togeod (a finv X Y Z : ℝ) : ℝ × ℝ × ℝ :=
  if togeodR X Y Z < 1e-20 then (0, 0, 0)
  else
    let sF := togeodLoop a (togeodEsq finv) (1 - togeodEsq finv)
      (togeodP X Y) Z 10 (togeodInit a finv X Y Z)
    (sF.dphi * (180 / Real.pi), togeodLambda X Y, sF.h)

/-! ## Include/satpos.py : satpos -/

/-- Pi as fixed in the GPS interface specification (satpos.py line 29). -/
def gpsPi : ℝ := 3.1415926535898

/-- Earth rotation rate in rad per second (satpos.py line 30). -/
def OmegaeDot : ℝ := 7.2921151467e-5

/-- Earth gravitational constant (satpos.py line 31). -/
def satposGM : ℝ := 3.986005e14

/-- Relativistic correction constant F (satpos.py line 32). -/
def satposF : ℝ := -4.442807633e-10

/-- np.remainder for a real argument: a - b * floor(a / b), which lies in
the interval from 0 to b for positive b. -/
noncomputable def npRemainder (a b : ℝ) : ℝ := a - b * (⌊a / b⌋ : ℤ)

/-- np.fix: truncation toward zero. -/
noncomputable def npFix (x : ℝ) : ℝ :=
  if 0 ≤ x then ((⌊x⌋ : ℤ) : ℝ) else ((⌈x⌉ : ℤ) : ℝ)

/-- MATLAB style remainder from satpos.py (matlab_rem). -/
noncomputable def matlabRem (a b : ℝ) : ℝ := a - b * npFix (a / b)

/-- check_t from satpos.py: wrap a time difference into half a GPS week. -/
noncomputable def checkT (time : ℝ) : ℝ :=
  if time > 302400 then time - 2 * 302400
  else if time < -302400 then time + 2 * 302400
  else time

open scoped Classical in
/-- The fixed-point Kepler iteration of satpos.py lines 81-87: at most 10
passes of E = M + e sin E, leaving early when the wrapped step is below
1e-12. -/
noncomputable def keplerLoop (M ecc : ℝ) : ℕ → ℝ → ℝ
  | 0, E => E
  | n + 1, E =>
    let E2 := M + ecc * Real.sin E
    if |npRemainder (E2 - E) (2 * gpsPi)| < 1e-12 then E2
    else keplerLoop M ecc n E2

/-- One entry of the ephemeris table as satpos sees it: the numeric fields
the orbital propagation reads, together with the two facts the presence
check tests, namely whether the Python dictionary is empty and whether it
has a t_oc key. -/
structure SatEph where
  isEmptyDict : Bool
  hasToc : Bool
  t_oc : ℝ
  a_f2 : ℝ
  a_f1 : ℝ
  a_f0 : ℝ
  T_GD : ℝ
  sqrtA : ℝ
  t_oe : ℝ
  deltan : ℝ
  M_0 : ℝ
  e : ℝ
  omega : ℝ
  C_uc : ℝ
  C_us : ℝ
  C_rc : ℝ
  C_rs : ℝ
  C_ic : ℝ
  C_is : ℝ
  i_0 : ℝ
  iDot : ℝ
  omega_0 : ℝ
  omegaDot : ℝ

/-- Out-of-range table accesses behave like a missing entry. -/
def satEphDefault : SatEph :=
  ⟨true, false, 0, 0, 0, 0, 0, 0, 0, 0, 0, 0, 0, 0, 0, 0, 0, 0, 0, 0, 0,
    0, 0⟩

/-- The defensive presence check of satpos.py line 45:
prn at least len(eph), or eph[prn] empty, or t_oc not a key of eph[prn]. -/
def satposSkip (prn : ℕ) (eph : List SatEph) : Bool :=
  decide (eph.length ≤ prn) || (eph.getD prn satEphDefault).isEmptyDict ||
    !(eph.getD prn satEphDefault).hasToc

/-- The orbital propagation body of satpos.py lines 50-128, producing the
ECEF position and the clock correction including the relativistic term. -/
noncomputable def satposBody (ed : SatEph) (t : ℝ) : (ℝ × ℝ × ℝ) × ℝ :=
  let dt := checkT (t - ed.t_oc)
  let clk := (ed.a_f2 * dt + ed.a_f1) * dt + ed.a_f0 - ed.T_GD
  let time := t - clk
  let a := ed.sqrtA ^ 2
  let tk := checkT (time - ed.t_oe)
  let n0 := Real.sqrt (satposGM / a ^ 3)
  let n := n0 + ed.deltan
  let M := npRemainder (ed.M_0 + n * tk + 2 * gpsPi) (2 * gpsPi)
  let E0 := keplerLoop M ed.e 10 M
  let E := npRemainder (E0 + 2 * gpsPi) (2 * gpsPi)
  let dtr := satposF * ed.e * ed.sqrtA * Real.sin E
  let nu := npArctan2 (Real.sqrt (1 - ed.e ^ 2) * Real.sin E)
    (Real.cos E - ed.e)
  let phi := npRemainder (nu + ed.omega) (2 * gpsPi)
  let u := phi + ed.C_uc * Real.cos (2 * phi) + ed.C_us * Real.sin (2 * phi)
  let r := a * (1 - ed.e * Real.cos E) + ed.C_rc * Real.cos (2 * phi) +
    ed.C_rs * Real.sin (2 * phi)
  let iInc := ed.i_0 + ed.iDot * tk + ed.C_ic * Real.cos (2 * phi) +
    ed.C_is * Real.sin (2 * phi)
  let xk1 := Real.cos u * r
  let yk1 := Real.sin u * r
  let Omega := matlabRem
    (ed.omega_0 + (ed.omegaDot - OmegaeDot) * tk - OmegaeDot * ed.t_oe +
      2 * gpsPi) (2 * gpsPi)
  let xk := xk1 * Real.cos Omega - yk1 * Real.cos iInc * Real.sin Omega
  let yk := xk1 * Real.sin Omega + yk1 * Real.cos iInc * Real.cos Omega
  let zk := yk1 * Real.sin iInc
  ((xk, yk, zk), clk + dtr)

/-- Python list index for the data access eph[prn - 1]: for prn = 0 the
Python index -1 denotes the last entry. -/
def satposDataIdx (prn : ℕ) (eph : List SatEph) : ℕ :=
  if prn = 0 then eph.length - 1 else prn - 1

/-- Processing of one satellite in the loop of satpos.py lines 41-128: the
presence check reads eph[prn] while the data comes from eph[prn - 1]; on a
failing check the result row keeps its zero initialization. -/
noncomputable def satposOne (t : ℝ) (prn : ℕ) (eph : List SatEph) :
    (ℝ × ℝ × ℝ) × ℝ :=
  if satposSkip prn eph then ((0, 0, 0), 0)
  else satposBody (eph.getD (satposDataIdx prn eph) satEphDefault) t

/-- Embedding of satpos from Include/satpos.py: one position and clock
correction per entry of prnList. -/
noncomputable def satpos (transmitTime : List ℝ) (prnList : List ℕ)
    (eph : List SatEph) : List ((ℝ × ℝ × ℝ) × ℝ) :=
  (List.range prnList.length).map
    (fun iSat => satposOne (transmitTime.getD iSat 0) (prnList.getD iSat 0) eph)

/-- Ephemeris table used by the C10 witness: entry 1 passes the presence
check, so the data is read from entry 0. -/
def satposWitnessEph : List SatEph :=
  [satEphDefault,
    { satEphDefault with isEmptyDict := false, hasToc := true }]

/-! ## Include/ephemeris.py : ephemeris decoding -/

/-- Value of a most-significant-bit-first bit string, as int(join, 2). -/
def binToNat (bits : List Bool) : ℕ :=
  bits.foldl (fun acc b => 2 * acc + (if b then 1 else 0)) 0

/-- Python slice l[a:b] on a bit list. -/
def bitSlice (l : List Bool) (a b : ℕ) : List Bool := (l.drop a).take (b - a)

/-- Embedding of checkPhase from Common/checkPhase.py: invert the 24 data
bits when the trailing bit of the previous word is set. -/
def checkPhase (word : List Bool) (D30Star : Bool) : List Bool :=
  if D30Star then (word.take 24).map (fun b => !b) ++ word.drop 24 else word

/-- Polarity correction of n consecutive 30-bit words (the j loop of
ephemeris.py lines 72-76), returning the corrected bits and the carried
D30Star, which the source reads from the corrected word. -/
def correctWords (bits : List Bool) (d : Bool) : ℕ → List Bool × Bool
  | 0 => ([], d)
  | n + 1 =>
    let w := checkPhase (bits.take 30) d
    let rest := correctWords (bits.drop 30) (w.getLastD false) n
    (w ++ rest.1, rest.2)

/-- Modelled from the spec: Common/twosComp2dec.py is not under src; the
spec describes the scaled ephemeris fields as twos-complement bit fields,
so the value is the unsigned value minus 2^length when the sign bit leads. -/
def twosComp2dec (bits : List Bool) : ℤ :=
  (binToNat bits : ℤ) - if bits.headD false then 2 ^ bits.length else 0

/-- Field extraction for one polarity-corrected subframe, ephemeris.py
lines 78-121: dispatch on the subframe id in bits 50..52 and store the
scaled fields of subframes 1, 2 and 3; other ids leave the record as is. -/
noncomputable def updateSubframe (r : EphRec) (sf : List Bool) : EphRec :=
  let sfid := binToNat (bitSlice sf 49 52)
  if sfid = 1 then
    { r with
      weekNumber := some ((binToNat (bitSlice sf 60 70) : ℤ) + 1024)
      accuracy := some (binToNat (bitSlice sf 72 76) : ℤ)
      health := some (binToNat (bitSlice sf 76 82) : ℤ)
      T_GD := some ((twosComp2dec (bitSlice sf 196 204) : ℝ) * (2 : ℝ) ^ (-31 : ℤ))
      IODC := some (binToNat (bitSlice sf 82 84 ++ bitSlice sf 196 204) : ℤ)
      t_oc := some ((binToNat (bitSlice sf 218 234) : ℤ) * 2 ^ 4)
      a_f2 := some ((twosComp2dec (bitSlice sf 240 248) : ℝ) * (2 : ℝ) ^ (-55 : ℤ))
      a_f1 := some ((twosComp2dec (bitSlice sf 248 264) : ℝ) * (2 : ℝ) ^ (-43 : ℤ))
      a_f0 := some ((twosComp2dec (bitSlice sf 270 292) : ℝ) * (2 : ℝ) ^ (-31 : ℤ))
      idValid := r.idValid.set 0 1 }
  else if sfid = 2 then
    { r with
      IODE_sf2 := some (binToNat (bitSlice sf 60 68) : ℤ)
      C_rs := some ((twosComp2dec (bitSlice sf 68 84) : ℝ) * (2 : ℝ) ^ (-5 : ℤ))
      deltan := some ((twosComp2dec (bitSlice sf 90 106) : ℝ) * (2 : ℝ) ^ (-43 : ℤ) * gpsPi)
      M_0 := some ((twosComp2dec (bitSlice sf 106 114 ++ bitSlice sf 120 144) : ℝ) * (2 : ℝ) ^ (-31 : ℤ) * gpsPi)
      C_uc := some ((twosComp2dec (bitSlice sf 150 166) : ℝ) * (2 : ℝ) ^ (-29 : ℤ))
      e := some ((binToNat (bitSlice sf 166 174 ++ bitSlice sf 180 204) : ℝ) * (2 : ℝ) ^ (-33 : ℤ))
      C_us := some ((twosComp2dec (bitSlice sf 210 226) : ℝ) * (2 : ℝ) ^ (-29 : ℤ))
      sqrtA := some ((binToNat (bitSlice sf 226 234 ++ bitSlice sf 240 264) : ℝ) * (2 : ℝ) ^ (-19 : ℤ))
      t_oe := some ((binToNat (bitSlice sf 270 286) : ℤ) * 2 ^ 4)
      idValid := r.idValid.set 1 2 }
  else if sfid = 3 then
    { r with
      C_ic := some ((twosComp2dec (bitSlice sf 60 76) : ℝ) * (2 : ℝ) ^ (-29 : ℤ))
      omega_0 := some ((twosComp2dec (bitSlice sf 76 84 ++ bitSlice sf 90 114) : ℝ) * (2 : ℝ) ^ (-31 : ℤ) * gpsPi)
      C_is := some ((twosComp2dec (bitSlice sf 120 136) : ℝ) * (2 : ℝ) ^ (-29 : ℤ))
      i_0 := some ((twosComp2dec (bitSlice sf 136 144 ++ bitSlice sf 150 174) : ℝ) * (2 : ℝ) ^ (-31 : ℤ) * gpsPi)
      C_rc := some ((twosComp2dec (bitSlice sf 180 196) : ℝ) * (2 : ℝ) ^ (-5 : ℤ))
      omega := some ((twosComp2dec (bitSlice sf 196 204 ++ bitSlice sf 210 234) : ℝ) * (2 : ℝ) ^ (-31 : ℤ) * gpsPi)
      omegaDot := some ((twosComp2dec (bitSlice sf 240 264) : ℝ) * (2 : ℝ) ^ (-43 : ℤ) * gpsPi)
      IODE_sf3 := some (binToNat (bitSlice sf 270 278) : ℤ)
      iDot := some ((twosComp2dec (bitSlice sf 278 292) : ℝ) * (2 : ℝ) ^ (-43 : ℤ) * gpsPi)
      idValid := r.idValid.set 2 3 }
  else r

/-- The subframe loop of ephemeris.py lines 66-121, threading the carried
D30Star and remembering the last corrected subframe. -/
noncomputable def ephLoop : List (List Bool) → EphRec → Bool → EphRec × List Bool
  | [], r, _ => (r, [])
  | sf :: rest, r, d =>
    let wd := correctWords sf d 10
    let r2 := updateSubframe r wd.1
    match rest with
    | [] => (r2, wd.1)
    | sf2 :: rest2 => ephLoop (sf2 :: rest2) r2 wd.2

/-- The five 300-bit subframe slices of the input. -/
def ephSubframes (bits : List Bool) : List (List Bool) :=
  (List.range 5).map (fun i => bitSlice bits (300 * i) (300 * (i + 1)))

/-- Embedding of ephemeris from Include/ephemeris.py: decode the 5 subframes
and compute the TOW of the first subframe from the HOW of the last one. -/
noncomputable def ephemeris (bits : List Bool) (D30Star : Bool) :
    EphRec × ℤ :=
  let res := ephLoop (ephSubframes bits) ephInit D30Star
  let tow : ℤ := (binToNat (bitSlice res.2 30 47) : ℤ) * 6 - 30
  ({ res.1 with TOW := some tow }, tow)

/-- The 17-bit HOW TOW-count field of the last (fifth) subframe after
polarity correction, recomputed directly from the input: the seed D30Star
of the fifth subframe is the original bit 1199, because polarity correction
never touches the parity bit a word carries forward. -/
def howTowLast (bits : List Bool) (d : Bool) : ℕ :=
  binToNat (bitSlice
    (correctWords (bitSlice bits 1200 1500) (bits.getD 1199 d) 10).1 30 47)

/-! ## Include/tracking.py : the per-channel tracking loop

The C/A chip sequence comes from generate_ca_code, whose source file is not
part of src; the claims proved here hold for every chip sequence, so the
chips enter as a function parameter. -/

/-- The receiver settings the tracking loop reads.  The damping-ratio
fields of the source keep only their leading words here. -/
structure TrkSettings where
  samplingFreq : ℝ
  codeFreqBasis : ℝ
  codeLength : ℝ
  dllCorrelatorSpacing : ℝ
  intTime : ℝ
  dllNoiseBandwidth : ℝ
  dllDamping : ℝ
  pllNoiseBandwidth : ℝ
  pllDamping : ℝ
  msToProcess : ℕ
  dataTypeInt16 : Bool
  fileType : ℕ
  skipNumberOfBytes : ℕ

/-- The channel record handed to tracking by pre_run. -/
structure TrkChannel where
  PRN : ℕ
  acquiredFreq : ℝ
  codePhase : ℕ
  status : Char

/-- Embedding of calc_loop_coef from Common/calcLoopCoef.py. -/
noncomputable def calc_loop_coef (LBW zeta k : ℝ) : ℝ × ℝ :=
  let Wn := LBW * 8 * zeta / (4 * zeta ^ 2 + 1)
  (k / Wn ^ 2, 2.0 * zeta / Wn)

/-- Bytes per sample element (2 for int16, 1 for int8), tracking.py line 135. -/
def bytesPerElement (st : TrkSettings) : ℕ := if st.dataTypeInt16 then 2 else 1

/-- Elements per complex sample (1 for real files, 2 for IQ), line 118. -/
def dataAdaptCoeff (st : TrkSettings) : ℕ := if st.fileType = 1 then 1 else 2

/-- The padded local code of tracking.py line 142: the chip sequence with
one wrap-around chip prepended and appended, indexed 0..1024. -/
def caCodePadded (chips : ℕ → ℝ) : ℕ → ℝ := fun i =>
  if i = 0 then chips 1022 else if i ≤ 1023 then chips (i - 1) else chips 0

/-- np.clip of an integer index into the padded code array of length 1025. -/
def clipIdx (i : ℤ) : ℕ := (max 0 (min i 1024)).toNat

/-- The per-channel mutable state of one tracking iteration.  bytePos is the
file position in bytes (fid.tell()). -/
structure TrackState where
  bytePos : ℕ
  remCodePhase : ℝ
  remCarrPhase : ℝ
  carrFreq : ℝ
  codeFreq : ℝ
  oldCarrNco : ℝ
  oldCarrError : ℝ
  oldCodeNco : ℝ
  oldCodeError : ℝ

/-- The state before the first iteration (tracking.py lines 135-161): the
file is seeked to the acquired code phase and the loop registers start at
the code frequency basis and acquired carrier frequency. -/
def trackInit (st : TrkSettings) (ch : TrkChannel) : TrackState :=
  ⟨(st.skipNumberOfBytes + ch.codePhase * dataAdaptCoeff st) *
      bytesPerElement st,
    0, 0, ch.acquiredFreq, st.codeFreqBasis, 0, 0, 0, 0⟩

/-- One iteration of the tracking loop (tracking.py lines 164-287): read a
block of blksize samples, correlate with early, prompt and late replicas,
run the Costas and DLL loop filters, and update the residual phases and the
file position.  The sample stream sig is indexed by byte offset of the
first byte of a complex sample; the block formulas are stated for the
nonempty blocks the invariant guarantees. -/
noncomputable def trackStep (sig : ℕ → ℂ) (chips : ℕ → ℝ)
    (st : TrkSettings) (carrFreqBasis : ℝ) (s : TrackState) : TrackState :=
  let codePhaseStep := s.codeFreq / st.samplingFreq
  let blksize : ℕ := (⌈(st.codeLength - s.remCodePhase) / codePhaseStep⌉).toNat
  let raw : ℕ → ℂ := fun j =>
    sig (s.bytePos + dataAdaptCoeff st * bytesPerElement st * j)
  let early : ℕ → ℝ := fun j => caCodePadded chips
    (clipIdx ⌈s.remCodePhase - st.dllCorrelatorSpacing + j * codePhaseStep⌉)
  let late : ℕ → ℝ := fun j => caCodePadded chips
    (clipIdx ⌈s.remCodePhase + st.dllCorrelatorSpacing + j * codePhaseStep⌉)
  let prompt : ℕ → ℝ := fun j => caCodePadded chips
    (clipIdx ⌈s.remCodePhase + j * codePhaseStep⌉)
  let carrsig : ℕ → ℂ := fun j => Complex.exp (-(Complex.I) *
    (2 * Real.pi * s.carrFreq * ((j : ℝ) / st.samplingFreq) + s.remCarrPhase))
  let iB : ℕ → ℝ := fun j => (carrsig j * raw j).re
  let qB : ℕ → ℝ := fun j => (carrsig j * raw j).im
  let I_E := ∑ j in Finset.range blksize, early j * iB j
  let Q_E := ∑ j in Finset.range blksize, early j * qB j
  let I_P := ∑ j in Finset.range blksize, prompt j * iB j
  let Q_P := ∑ j in Finset.range blksize, prompt j * qB j
  let I_L := ∑ j in Finset.range blksize, late j * iB j
  let Q_L := ∑ j in Finset.range blksize, late j * qB j
  let tauCarr := calc_loop_coef st.pllNoiseBandwidth st.pllDamping 0.25
  let tauCode := calc_loop_coef st.dllNoiseBandwidth st.dllDamping 1.0
  let carrError := Real.arctan (Q_P / I_P) / (2 * Real.pi)
  let carrNco := s.oldCarrNco + (tauCarr.2 / tauCarr.1) *
    (carrError - s.oldCarrError) + carrError * (st.intTime / tauCarr.1)
  let hypotE := Real.sqrt (I_E ^ 2 + Q_E ^ 2)
  let hypotL := Real.sqrt (I_L ^ 2 + Q_L ^ 2)
  let codeError := (hypotE - hypotL) / (hypotE + hypotL)
  let codeNco := s.oldCodeNco + (tauCode.2 / tauCode.1) *
    (codeError - s.oldCodeError) + codeError * (st.intTime / tauCode.1)
  { bytePos := s.bytePos + dataAdaptCoeff st * blksize * bytesPerElement st
    remCodePhase := s.remCodePhase + (blksize : ℝ) * codePhaseStep -
      st.codeLength
    remCarrPhase := npRemainder
      (2 * Real.pi * s.carrFreq * ((blksize : ℝ) / st.samplingFreq) +
        s.remCarrPhase) (2 * Real.pi)
    carrFreq := carrFreqBasis + carrNco
    codeFreq := st.codeFreqBasis - codeNco
    oldCarrNco := carrNco
    oldCarrError := carrError
    oldCodeNco := codeNco
    oldCodeError := codeError }

/-- The state at the start of iteration k of the tracking loop. -/
noncomputable def trackTrace (sig : ℕ → ℂ) (chips : ℕ → ℝ)
    (st : TrkSettings) (ch : TrkChannel) (k : ℕ) : TrackState :=
  (trackStep sig chips st ch.acquiredFreq)^[k] (trackInit st ch)

/-- The absoluteSample value recorded at the start of an iteration
(tracking.py line 172): the byte position divided by the data adaptation
coefficient and the bytes per element. -/
noncomputable def absoluteSample (st : TrkSettings) (s : TrackState) : ℝ :=
  (s.bytePos : ℝ) / (dataAdaptCoeff st : ℝ) / (bytesPerElement st : ℝ)

/-! ## Include/acquisition.py : cold-start acquisition

Like tracking, the acquisition embedding takes the chip sequences of
generate_ca_code (not under src) as a parameter caGen, mapping PRN and chip
index to the chip value; all claims hold for every chip table.  The input
signal is a function from sample index with an explicit length Mlen. -/

/-- The acquisition settings read by acquisition.py and acq.py. -/
structure AcqSettings where
  samplingFreq : ℝ
  codeFreqBasis : ℝ
  codeLength : ℕ
  IF : ℝ
  acqSearchBand : ℝ
  acqSearchStep : ℝ
  acqThreshold : ℝ
  acqNonCohTime : ℕ
  acqCoherentInt : ℕ
  acqSatelliteList : List ℕ

/-- Discrete Fourier transform of the first N entries of x (np.fft.fft). -/
noncomputable def dftR (N : ℕ) (x : ℕ → ℂ) (k : ℕ) : ℂ :=
  ∑ j in Finset.range N, x j *
    Complex.exp (-(2 * Real.pi * Complex.I * k * j) / N)

/-- Inverse discrete Fourier transform (np.fft.ifft). -/
noncomputable def idftR (N : ℕ) (X : ℕ → ℂ) (j : ℕ) : ℂ :=
  (N : ℂ)⁻¹ * ∑ k in Finset.range N, X k *
    Complex.exp ((2 * Real.pi * Complex.I * k * j) / N)

/-- Samples per code period as computed by acquisition.py line 59 and
makeCaTable.py: round(fs / (basis / length)).  Lean round differs from the
Python bankers rounding only at exact half integers, which no physical
sampling setup hits. -/
noncomputable def acqSamplesPerCode (st : AcqSettings) : ℕ :=
  (round (st.samplingFreq / (st.codeFreqBasis / (st.codeLength : ℝ)))).toNat

/-- Embedding of make_ca_table from Include/makeCaTable.py: the chip
sequence of one PRN resampled to the sampling rate, with the final sample
clamped to the last chip. -/
noncomputable def make_ca_table (caGen : ℕ → ℕ → ℝ) (prn : ℕ)
    (st : AcqSettings) : ℕ → ℝ := fun k =>
  if k = acqSamplesPerCode st - 1 then caGen prn 1022
  else caGen prn
    ((⌈((k : ℝ) + 1) * st.codeFreqBasis / st.samplingFreq⌉ - 1).toNat)

/-- Row count of the coarse search matrix, acquisition.py line 66. -/
noncomputable def numberOfFreqBins (st : AcqSettings) : ℕ :=
  (round (st.acqSearchBand * 2 / st.acqSearchStep) + 1).toNat

/-- Number of frequencies actually searched, acquisition.py line 112. -/
noncomputable def acqNumFreq (st : AcqSettings) : ℕ :=
  (2 * ⌊st.acqSearchBand / st.acqSearchStep⌋ + 1).toNat

/-- np.linspace over num points. -/
noncomputable def npLinspace (start stop : ℝ) (num : ℕ) : ℕ → ℝ := fun i =>
  if num ≤ 1 then start
  else start + (i : ℝ) * ((stop - start) / ((num : ℝ) - 1))

/-- The coarse carrier frequency grid of acquisition.py lines 110-115. -/
noncomputable def coarseFreqBins (st : AcqSettings) : ℕ → ℝ :=
  npLinspace (st.IF + st.acqSearchBand) (st.IF - st.acqSearchBand)
    (acqNumFreq st)

/-- The noise scale of acquisition.py lines 99-100: sqrt of the sample
variance (ddof 1) of the first code period times the code period length. -/
noncomputable def acqSigPower (st : AcqSettings) (sig : ℕ → ℂ) : ℝ :=
  Real.sqrt
    (((∑ j in Finset.range (acqSamplesPerCode st),
        Complex.abs (sig j -
          (∑ i in Finset.range (acqSamplesPerCode st), sig i) /
            (acqSamplesPerCode st : ℂ)) ^ 2) /
      ((acqSamplesPerCode st : ℝ) - 1)) * (acqSamplesPerCode st : ℝ))

/-- One coherent correlation magnitude of the coarse search (acquisition.py
lines 141-156): mix block nc to baseband, correlate with the zero-padded
code through the frequency domain, and take the magnitude at the given lag.
Blocks extending past the end of the signal are skipped. -/
noncomputable def acqCohResult (st : AcqSettings) (caGen : ℕ → ℕ → ℝ)
    (prn : ℕ) (sig : ℕ → ℂ) (Mlen : ℕ) (freq : ℝ) (nc lag : ℕ) : ℝ :=
  let spc := acqSamplesPerCode st
  let ca2ms : ℕ → ℂ := fun j =>
    if j < spc then (make_ca_table caGen prn st j : ℂ) else 0
  let cafd : ℕ → ℂ := fun k => starRingEnd ℂ (dftR (2 * spc) ca2ms k)
  let baseband : ℕ → ℂ := fun j =>
    Complex.exp (-(Complex.I) * freq *
      ((j : ℝ) * 2 * Real.pi * (1 / st.samplingFreq))) * sig (nc * spc + j)
  if Mlen < (nc + 2) * spc then 0
  else Complex.abs
    (idftR (2 * spc) (fun k => dftR (2 * spc) baseband k * cafd k) lag)

/-- The accumulated coarse search matrix of acquisition.py (results): rows
beyond the searched frequencies keep their zero initialization. -/
noncomputable def acqResultsMat (st : AcqSettings) (caGen : ℕ → ℕ → ℝ)
    (prn : ℕ) (sig : ℕ → ℂ) (Mlen : ℕ) (i lag : ℕ) : ℝ :=
  if i < acqNumFreq st then
    ∑ nc in Finset.range st.acqNonCohTime,
      acqCohResult st caGen prn sig Mlen (coarseFreqBins st i) nc lag
  else 0

/-- Maximum of the first n values of f, with 0 for the empty range (np.max
never sees an empty array in the embedded code paths). -/
noncomputable def maxOver (f : ℕ → ℝ) : ℕ → ℝ
  | 0 => 0
  | n + 1 => max (maxOver f n) (f n)

/-- np.argmax over the first n values of f: the first index attaining the
maximum. -/
noncomputable def argmaxIdx (f : ℕ → ℝ) : ℕ → ℕ
  | 0 => 0
  | n + 1 => if f (argmaxIdx f n) < f n then n else argmaxIdx f n

/-- peak_size of acquisition.py line 166. -/
noncomputable def acqPeakSize (st : AcqSettings) (caGen : ℕ → ℕ → ℝ)
    (prn : ℕ) (sig : ℕ → ℂ) (Mlen : ℕ) : ℝ :=
  maxOver (fun i => maxOver (acqResultsMat st caGen prn sig Mlen i)
    (2 * acqSamplesPerCode st)) (numberOfFreqBins st)

/-- The coarse frequency index of acquisition.py line 163. -/
noncomputable def acqCoarseFreqIdx (st : AcqSettings) (caGen : ℕ → ℕ → ℝ)
    (prn : ℕ) (sig : ℕ → ℂ) (Mlen : ℕ) : ℕ :=
  argmaxIdx (fun i => maxOver (acqResultsMat st caGen prn sig Mlen i)
    (2 * acqSamplesPerCode st)) (numberOfFreqBins st)

/-- The coarse code phase of acquisition.py line 167. -/
noncomputable def acqCodePhase (st : AcqSettings) (caGen : ℕ → ℕ → ℝ)
    (prn : ℕ) (sig : ℕ → ℂ) (Mlen : ℕ) : ℕ :=
  argmaxIdx (fun lag => maxOver
    (fun i => acqResultsMat st caGen prn sig Mlen i lag)
    (numberOfFreqBins st)) (2 * acqSamplesPerCode st)

/-- The GLRT peak metric of acquisition.py line 169. -/
noncomputable def acqPeakMetric (st : AcqSettings) (caGen : ℕ → ℕ → ℝ)
    (prn : ℕ) (sig : ℕ → ℂ) (Mlen : ℕ) : ℝ :=
  acqPeakSize st caGen prn sig Mlen / acqSigPower st sig / st.acqNonCohTime

/-- The coarse frequency estimate of acquisition.py line 164. -/
noncomputable def acqCoarseFreq (st : AcqSettings) (caGen : ℕ → ℕ → ℝ)
    (prn : ℕ) (sig : ℕ → ℂ) (Mlen : ℕ) : ℝ :=
  coarseFreqBins st (acqCoarseFreqIdx st caGen prn sig Mlen)

/-- Number of fine search bins, acquisition.py line 89 (step 25 Hz). -/
noncomputable def numOfFineBins (st : AcqSettings) : ℕ :=
  (round (st.acqSearchStep / 25) + 1).toNat

/-- The 40 ms upsampled code replica of acquisition.py lines 184-185. -/
noncomputable def acqCa40 (st : AcqSettings) (caGen : ℕ → ℕ → ℝ)
    (prn : ℕ) : ℕ → ℝ := fun j =>
  caGen prn
    ((⌊((j : ℝ) / st.samplingFreq) * st.codeFreqBasis⌋.emod
      (st.codeLength : ℤ)).toNat)

/-- The best 20 ms coherent power over the 20 possible bit-edge alignments
at one fine frequency (acquisition.py lines 193-209). -/
noncomputable def acqFinePower (st : AcqSettings) (caGen : ℕ → ℕ → ℝ)
    (prn : ℕ) (sig : ℕ → ℂ) (Mlen : ℕ) (freq : ℝ) : ℝ :=
  let spc := acqSamplesPerCode st
  let cp := acqCodePhase st caGen prn sig Mlen
  let baseband : ℕ → ℂ := fun j =>
    sig (cp + j) * (acqCa40 st caGen prn j : ℂ) *
      Complex.exp (-(Complex.I) * freq *
        ((j : ℝ) * 2 * Real.pi * (1 / st.samplingFreq)))
  let sumPerCode : ℕ → ℂ := fun i =>
    ∑ j in Finset.range spc, baseband (i * spc + j)
  maxOver
    (fun com => Complex.abs (∑ i in Finset.range 20, sumPerCode (com + i)))
    20

/-- fine_result of acquisition.py line 209 at bin k (frequency
coarse_freq - 25 k, line 192). -/
noncomputable def acqFineResult (st : AcqSettings) (caGen : ℕ → ℕ → ℝ)
    (prn : ℕ) (sig : ℕ → ℂ) (Mlen : ℕ) (k : ℕ) : ℝ :=
  acqFinePower st caGen prn sig Mlen
    (acqCoarseFreq st caGen prn sig Mlen - 25 * (k : ℝ))

/-- The fine-search carrier frequency of acquisition.py lines 210-212. -/
noncomputable def acqFineFreq (st : AcqSettings) (caGen : ℕ → ℕ → ℝ)
    (prn : ℕ) (sig : ℕ → ℂ) (Mlen : ℕ) : ℝ :=
  acqCoarseFreq st caGen prn sig Mlen -
    25 * (argmaxIdx (acqFineResult st caGen prn sig Mlen)
      (numOfFineBins st) : ℝ)

/-- The acquisition result table: arrays indexed by position in the
satellite list (the extra last entry of the Python arrays stays zero). -/
structure AcqResults where
  PRN : ℕ → ℝ
  carrFreq : ℕ → ℝ
  codePhase : ℕ → ℕ
  peakMetric : ℕ → ℝ

open scoped Classical in
/-- Embedding of acquisition from Include/acquisition.py: per listed PRN,
the peak metric is always stored; on detection (metric above threshold) the
fine frequency (coerced to 1 Hz when it is exactly 0), the code phase and
the PRN are stored, otherwise those entries keep their zeros. -/
noncomputable def acquisition (sig : ℕ → ℂ) (Mlen : ℕ) (st : AcqSettings)
    (caGen : ℕ → ℕ → ℝ) : AcqResults :=
  let listed : ℕ → Prop := fun n => n < st.acqSatelliteList.length
  let prnOf : ℕ → ℕ := fun n => st.acqSatelliteList.getD n 0
  let metric : ℕ → ℝ := fun n =>
    if listed n then acqPeakMetric st caGen (prnOf n) sig Mlen else 0
  { PRN := fun n =>
      if listed n ∧ metric n > st.acqThreshold then (prnOf n : ℝ) else 0
    carrFreq := fun n =>
      if listed n ∧ metric n > st.acqThreshold then
        (if acqFineFreq st caGen (prnOf n) sig Mlen = 0 then 1
         else acqFineFreq st caGen (prnOf n) sig Mlen)
      else 0
    codePhase := fun n =>
      if listed n ∧ metric n > st.acqThreshold then
        acqCodePhase st caGen (prnOf n) sig Mlen
      else 0
    peakMetric := metric }

/-! ## Include/acq.py : detect_ca_sat and detect_ca_sat_gpu

Both functions share make_ca_table and the numpy FFT primitives; spectra of
the coherent blocks live on ZMod N (N the FFT length), where circular
shifting is composition with addition. -/

/-- The character exp(2 pi i m / N) on ZMod N. -/
noncomputable def eZ {N : ℕ} [NeZero N] (m : ZMod N) : ℂ :=
  Complex.exp (2 * (Real.pi : ℂ) * Complex.I * (m.val : ℂ) / (N : ℂ))

/-- Forward DFT on ZMod N (scipy fft). -/
noncomputable def zfft {N : ℕ} [NeZero N] (x : ZMod N → ℂ) (k : ZMod N) : ℂ :=
  ∑ j : ZMod N, x j * eZ (-(k * j))

/-- Inverse DFT on ZMod N (scipy ifft). -/
noncomputable def zifft {N : ℕ} [NeZero N] (X : ZMod N → ℂ) (j : ZMod N) : ℂ :=
  (N : ℂ)⁻¹ * ∑ k : ZMod N, X k * eZ (k * j)

/-- Samples per code period as acq.py lines 115 and 223 compute it:
round(codeLength * fs / basis). -/
noncomputable def acq2SamplesPerCode (st : AcqSettings) : ℕ :=
  (round ((st.codeLength : ℝ) * st.samplingFreq / st.codeFreqBasis)).toNat

/-- The FFT length N = 2 * samples_per_code * n_coherent. -/
noncomputable def acq2N (st : AcqSettings) (ncoh : ℕ) : ℕ :=
  2 * acq2SamplesPerCode st * ncoh

/-- The total number of samples both functions require. -/
noncomputable def acq2Total (st : AcqSettings) (ncoh nnc : ℕ) : ℕ :=
  acq2SamplesPerCode st * (2 * ncoh * nnc)

/-- Mean of the real parts of the input (acq.py line 138). -/
noncomputable def acq2MeanRe (Mlen : ℕ) (x : ℕ → ℂ) : ℝ :=
  (∑ j in Finset.range Mlen, (x j).re) / (Mlen : ℝ)

/-- Mean of the imaginary parts of the input (acq.py line 139). -/
noncomputable def acq2MeanIm (Mlen : ℕ) (x : ℕ → ℂ) : ℝ :=
  (∑ j in Finset.range Mlen, (x j).im) / (Mlen : ℝ)

/-- The de-meaned real part rl. -/
noncomputable def acq2Rl (Mlen : ℕ) (x : ℕ → ℂ) : ℕ → ℝ := fun j =>
  (x j).re - acq2MeanRe Mlen x

/-- The de-meaned imaginary part im. -/
noncomputable def acq2Im (Mlen : ℕ) (x : ℕ → ℂ) : ℕ → ℝ := fun j =>
  (x j).im - acq2MeanIm Mlen x

/-- The reference normalization scale, acq.py line 140:
np.max over the concatenation of rl and im.  Both arrays have zero mean, so
their maxima are nonnegative and the zero-based maxOver is exact. -/
noncomputable def refScale (Mlen : ℕ) (x : ℕ → ℂ) : ℝ :=
  maxOver (fun j => if j < Mlen then acq2Rl Mlen x j
    else acq2Im Mlen x (j - Mlen)) (Mlen + Mlen)

/-- The GPU normalization scale, acq.py line 235: the maximum of the two
per-array maxima. -/
noncomputable def gpuScale (Mlen : ℕ) (x : ℕ → ℂ) : ℝ :=
  max (maxOver (acq2Rl Mlen x) Mlen) (maxOver (acq2Im Mlen x) Mlen)

/-- The scaled baseband input of the reference path (acq.py line 141),
including the optional IF mix-down of lines 144-148. -/
noncomputable def refPre (st : AcqSettings) (Mlen : ℕ) (x : ℕ → ℂ) :
    ℕ → ℂ := fun j =>
  let base := ((0.5 / refScale Mlen x : ℝ) : ℂ) *
    ((acq2Rl Mlen x j : ℂ) + (acq2Im Mlen x j : ℂ) * Complex.I)
  if st.IF ≠ 0 then
    base * Complex.exp (-Complex.I *
      ((2 * Real.pi * (1 / st.samplingFreq) * st.IF : ℝ) : ℂ) * (j : ℂ))
  else base

/-- The scaled baseband input of the GPU path (acq.py lines 236-242). -/
noncomputable def gpuPre (st : AcqSettings) (Mlen : ℕ) (x : ℕ → ℂ) :
    ℕ → ℂ := fun j =>
  let base := ((0.5 / gpuScale Mlen x : ℝ) : ℂ) *
    ((acq2Rl Mlen x j : ℂ) + (acq2Im Mlen x j : ℂ) * Complex.I)
  if st.IF ≠ 0 then
    base * Complex.exp (-Complex.I *
      ((2 * Real.pi * (1 / st.samplingFreq) * st.IF : ℝ) : ℂ) * (j : ℂ))
  else base

/-- The time-domain PRN template shared by both paths: the resampled code
tiled n_coherent times followed by the same length of zeros. -/
noncomputable def acq2Template (st : AcqSettings) (caGen : ℕ → ℕ → ℝ)
    (prn ncoh : ℕ) : ℕ → ℂ := fun j =>
  if j < acq2SamplesPerCode st * ncoh then
    (make_ca_table caGen prn st (j % acq2SamplesPerCode st) : ℂ)
  else 0

/-- The conjugated template spectrum. -/
noncomputable def acq2Tconj (st : AcqSettings) (caGen : ℕ → ℕ → ℝ)
    (prn ncoh : ℕ) (N : ℕ) [NeZero N] : ZMod N → ℂ := fun k =>
  starRingEnd ℂ (zfft (fun nb : ZMod N => acq2Template st caGen prn ncoh nb.val) k)

/-- Spectrum of the b-th coherent block of a preprocessed input. -/
noncomputable def acq2Xfd (pre : ℕ → ℂ) (N : ℕ) [NeZero N] (b : ℕ) :
    ZMod N → ℂ :=
  zfft (fun nb : ZMod N => pre (b * N + nb.val))

/-- np.fft.fftfreq of length N and spacing d. -/
noncomputable def fftfreq (N : ℕ) (d : ℝ) : ℕ → ℝ := fun k =>
  (if k < (N + 1) / 2 then (k : ℝ) else (k : ℝ) - (N : ℝ)) / ((N : ℝ) * d)

open scoped Classical in
/-- The number of Doppler bins inside the search band. -/
noncomputable def acq2F (st : AcqSettings) (N : ℕ) : ℕ :=
  ((Finset.range N).filter (fun k =>
    -st.acqSearchBand ≤ fftfreq N (1 / st.samplingFreq) k ∧
    fftfreq N (1 / st.samplingFreq) k ≤ st.acqSearchBand)).card

/-- initial_shift = (F - 1) // 2 with Python floor division. -/
noncomputable def acq2Shift (st : AcqSettings) (N : ℕ) : ℤ :=
  Int.fdiv ((acq2F st N : ℤ) - 1) 2

/-- The frequency table of detect_ca_sat (np.roll of fftfreq). -/
noncomputable def refFreqTable (st : AcqSettings) (N : ℕ) : ℕ → ℝ := fun i =>
  fftfreq N (1 / st.samplingFreq) (((i : ℤ) - acq2Shift st N).emod N).toNat

/-- The frequency table of detect_ca_sat_gpu (cp.roll of fftfreq). -/
noncomputable def gpuFreqTable (st : AcqSettings) (N : ℕ) : ℕ → ℝ := fun i =>
  fftfreq N (1 / st.samplingFreq) (((i : ℤ) - acq2Shift st N).emod N).toNat

/-- The normalized detector of detect_ca_sat (acq.py lines 170-189): at bin
i the data spectrum is rolled by initial_shift - i and multiplied by the
conjugated template spectrum; magnitudes squared accumulate over the
non-coherent blocks and are divided by n_noncoherent * samples_per_code. -/
noncomputable def refDetector (st : AcqSettings) (caGen : ℕ → ℕ → ℝ)
    (prn : ℕ) (Mlen : ℕ) (x : ℕ → ℂ) (ncoh nnc : ℕ) (N : ℕ) [NeZero N]
    (i : ℕ) (k : ZMod N) : ℝ :=
  (∑ b in Finset.range nnc,
    Complex.abs (zifft (fun kk =>
      acq2Xfd (refPre st Mlen x) N b
          (kk - ((acq2Shift st N - i : ℤ) : ZMod N)) *
        acq2Tconj st caGen prn ncoh N kk) k) ^ 2) /
    ((nnc : ℝ) * (acq2SamplesPerCode st : ℝ))

/-- The normalized detector of detect_ca_sat_gpu (acq.py lines 275-310): at
bin i the conjugated template spectrum is gathered at indices shifted by
initial_shift - i, the data spectrum stays in place, and the accumulated
powers are multiplied by 1 / (B * samples_per_code). -/
noncomputable def gpuDetector (st : AcqSettings) (caGen : ℕ → ℕ → ℝ)
    (prn : ℕ) (Mlen : ℕ) (x : ℕ → ℂ) (ncoh nnc : ℕ) (N : ℕ) [NeZero N]
    (i : ℕ) (k : ZMod N) : ℝ :=
  (∑ b in Finset.range nnc,
    Complex.abs (zifft (fun kk =>
      acq2Xfd (gpuPre st Mlen x) N b kk *
        acq2Tconj st caGen prn ncoh N
          (kk + ((acq2Shift st N - i : ℤ) : ZMod N))) k) ^ 2) *
    (1 / ((nnc : ℝ) * (acq2SamplesPerCode st : ℝ)))

/-- Concrete settings used by the C3 witness: unit frequencies, a
one-chip code, one coherent and one non-coherent integration. -/
def acq2WitnessSettings : AcqSettings := ⟨1, 1, 1, 0, 0, 1, 1, 1, 1, [5]⟩

instance acq2WitnessNeZero : NeZero (acq2N acq2WitnessSettings 1) :=
  ⟨by
    unfold acq2N acq2SamplesPerCode acq2WitnessSettings
    norm_num⟩

-- ===================================================================
-- ============================ THEOREMS =============================
-- ===================================================================

/-! ### Helper lemmas -/

theorem posDef_transpose_mul_self {n : ℕ} (A : Matrix (Fin n) (Fin 4) ℝ)
    (h : A.rank = 4) : (Aᵀ * A).PosDef := by
  constructor
  · exact Matrix.isHermitian_transpose_mul_self A
  · intro x hx
    have hker : LinearMap.ker A.mulVecLin = ⊥ := by
      have hrn := LinearMap.finrank_range_add_finrank_ker A.mulVecLin
      have hdom : Module.finrank ℝ (Fin 4 → ℝ) = 4 := by simp
      have hr : Module.finrank ℝ (LinearMap.range A.mulVecLin) = 4 := h
      have hzero : Module.finrank ℝ (LinearMap.ker A.mulVecLin) = 0 := by omega
      exact Submodule.finrank_eq_zero.mp hzero
    have hAx : A.mulVec x ≠ 0 := by
      intro hc
      exact hx (LinearMap.ker_eq_bot.mp hker (by simpa [Matrix.mulVecLin_apply] using hc))
    have hrw : star x ⬝ᵥ (Aᵀ * A) *ᵥ x = (A *ᵥ x) ⬝ᵥ (A *ᵥ x) := by
      rw [show (star x : Fin 4 → ℝ) = x from funext fun i => star_trivial _]
      rw [← Matrix.mulVec_mulVec, Matrix.dotProduct_mulVec, Matrix.vecMul_transpose]
    rw [hrw]
    obtain ⟨i, hi⟩ := Function.ne_iff.mp hAx
    have hle : ∀ j ∈ Finset.univ, 0 ≤ (A *ᵥ x) j * (A *ᵥ x) j :=
      fun j _ => mul_self_nonneg _
    have hlt : 0 < (A *ᵥ x) i * (A *ᵥ x) i := by
      have hne : (A *ᵥ x) i ≠ 0 := by simpa using hi
      exact mul_self_pos.mpr hne
    exact Finset.sum_pos' hle ⟨i, Finset.mem_univ i, hlt⟩

theorem posDef_diag_pos {M : Matrix (Fin 4) (Fin 4) ℝ} (h : M.PosDef)
    (i : Fin 4) : 0 < M i i := by
  have hx : (Pi.single i 1 : Fin 4 → ℝ) ≠ 0 := by
    intro hc
    have := congrFun hc i
    simp at this
  have := h.2 (Pi.single i 1) hx
  have hrw : star (Pi.single i 1 : Fin 4 → ℝ) ⬝ᵥ M *ᵥ Pi.single i 1 = M i i := by
    rw [show (star (Pi.single i 1 : Fin 4 → ℝ)) = Pi.single i 1 from
      funext fun j => star_trivial _]
    simp [Matrix.dotProduct, Matrix.mulVec, Pi.single_apply, Finset.sum_ite_eq,
      Finset.mul_sum, mul_ite]
  rwa [hrw] at this

/-! ### Claim C7 -/

/-- Claim C7: for equal-length arrays I and Q and positive accumulation time
T, cno_vsm returns NaN (modelled as none) exactly when the mean of Z squared
is at most the variance of Z or Nv is at most 0, and otherwise returns
10 log10 (Pav / (2 Nv T)). -/
theorem cno_vsm_spec (Ip Qp : List ℝ) (T : ℝ) (hlen : Ip.length = Qp.length)
    (hT : 0 < T) :
    (cno_vsm Ip Qp T = none ↔
      (npMean (vsmZ Ip Qp)) ^ 2 ≤ npVar (vsmZ Ip Qp) ∨ vsmNv Ip Qp ≤ 0) ∧
    (npVar (vsmZ Ip Qp) < (npMean (vsmZ Ip Qp)) ^ 2 → 0 < vsmNv Ip Qp →
      cno_vsm Ip Qp T =
        some (10 * Real.logb 10 (vsmPav Ip Qp / (2 * vsmNv Ip Qp * T)))) := by
  constructor
  · unfold cno_vsm
    split_ifs with h1 h2
    · simp only [true_iff]
      left; linarith
    · simp only [true_iff]
      right; exact h2
    · simp only [false_iff]
      push_neg
      exact ⟨by linarith, lt_of_not_le h2⟩
  · intro hd hNv
    unfold cno_vsm
    rw [if_neg (by linarith), if_neg (by linarith)]
    have hPav : 0 < vsmPav Ip Qp := Real.sqrt_pos.mpr (by linarith)
    have habs : |(1 / T) * vsmPav Ip Qp / (2 * vsmNv Ip Qp)| =
        vsmPav Ip Qp / (2 * vsmNv Ip Qp * T) := by
      rw [abs_of_pos (by positivity), div_eq_mul_inv, div_eq_mul_inv, mul_inv]
      ring
    rw [habs]

/-- Claim C7 witness: the theorem instantiated at I = [1, 3], Q = [0, 0],
T = 1. -/
theorem cno_vsm_spec_witness :
    (cno_vsm [1, 3] [0, 0] 1 = none ↔
      (npMean (vsmZ [1, 3] [0, 0])) ^ 2 ≤ npVar (vsmZ [1, 3] [0, 0]) ∨
        vsmNv [1, 3] [0, 0] ≤ 0) ∧
    (npVar (vsmZ [1, 3] [0, 0]) < (npMean (vsmZ [1, 3] [0, 0])) ^ 2 →
      0 < vsmNv [1, 3] [0, 0] →
      cno_vsm [1, 3] [0, 0] 1 =
        some (10 * Real.logb 10
          (vsmPav [1, 3] [0, 0] / (2 * vsmNv [1, 3] [0, 0] * 1)))) :=
  cno_vsm_spec [1, 3] [0, 0] 1 (by simp) (by norm_num)

/-! ### Claim C8 -/

/-- Claim C8: when least_square_pos finishes with a full-rank geometry matrix
A, the five DOP values computed from Q = inv(A.T A) satisfy
GDOP^2 = PDOP^2 + TDOP^2 and PDOP^2 = HDOP^2 + VDOP^2. -/
theorem dop_pythagorean {n : ℕ} (A : Matrix (Fin n) (Fin 4) ℝ)
    (h : A.rank = 4) :
    (lsqDop A 0) ^ 2 = (lsqDop A 1) ^ 2 + (lsqDop A 4) ^ 2 ∧
    (lsqDop A 1) ^ 2 = (lsqDop A 2) ^ 2 + (lsqDop A 3) ^ 2 := by
  have hQ : (lsqQ A).PosDef := (posDef_transpose_mul_self A h).inv
  have h00 := posDef_diag_pos hQ 0
  have h11 := posDef_diag_pos hQ 1
  have h22 := posDef_diag_pos hQ 2
  have h33 := posDef_diag_pos hQ 3
  have htr : Matrix.trace (lsqQ A) =
      lsqQ A 0 0 + lsqQ A 1 1 + lsqQ A 2 2 + lsqQ A 3 3 := by
    simp [Matrix.trace, Matrix.diag, Fin.sum_univ_four]
  have e0 : lsqDop A 0 = Real.sqrt (Matrix.trace (lsqQ A)) := by
    simp [lsqDop, dopOf]
  have e1 : lsqDop A 1 = Real.sqrt (lsqQ A 0 0 + lsqQ A 1 1 + lsqQ A 2 2) := by
    simp [lsqDop, dopOf]
  have e2 : lsqDop A 2 = Real.sqrt (lsqQ A 0 0 + lsqQ A 1 1) := by
    simp [lsqDop, dopOf]
  have e3 : lsqDop A 3 = Real.sqrt (lsqQ A 2 2) := by
    simp [lsqDop, dopOf]
  have e4 : lsqDop A 4 = Real.sqrt (lsqQ A 3 3) := by
    simp [lsqDop, dopOf]
  constructor
  · rw [e0, e1, e4, Real.sq_sqrt (by rw [htr]; linarith),
      Real.sq_sqrt (by linarith), Real.sq_sqrt (by linarith), htr]
  · rw [e1, e2, e3, Real.sq_sqrt (by linarith), Real.sq_sqrt (by linarith),
      Real.sq_sqrt (by linarith)]

/-- Claim C8 witness: the DOP identities at the identity geometry matrix. -/
theorem dop_pythagorean_witness :
    (lsqDop (1 : Matrix (Fin 4) (Fin 4) ℝ) 0) ^ 2 =
      (lsqDop (1 : Matrix (Fin 4) (Fin 4) ℝ) 1) ^ 2 +
        (lsqDop (1 : Matrix (Fin 4) (Fin 4) ℝ) 4) ^ 2 ∧
    (lsqDop (1 : Matrix (Fin 4) (Fin 4) ℝ) 1) ^ 2 =
      (lsqDop (1 : Matrix (Fin 4) (Fin 4) ℝ) 2) ^ 2 +
        (lsqDop (1 : Matrix (Fin 4) (Fin 4) ℝ) 3) ^ 2 :=
  dop_pythagorean 1 (by simp [Matrix.rank_one])

/-! ### Claim C3 -/

theorem eZ_add {N : ℕ} [NeZero N] (a b : ZMod N) :
    eZ (a + b) = eZ a * eZ b := by
  have hNC : (N : ℂ) ≠ 0 := Nat.cast_ne_zero.mpr (NeZero.ne N)
  have hq : a.val + b.val = (a + b).val + N * ((a.val + b.val) / N) := by
    rw [ZMod.val_add]
    exact (Nat.mod_add_div _ _).symm
  have hcast : (a.val : ℂ) + (b.val : ℂ) =
      ((a + b).val : ℂ) + (N : ℂ) * (((a.val + b.val) / N : ℕ) : ℂ) := by
    exact_mod_cast congrArg (fun m : ℕ => (m : ℂ)) hq
  unfold eZ
  rw [← Complex.exp_add]
  have harg : 2 * (Real.pi : ℂ) * Complex.I * (a.val : ℂ) / N +
      2 * (Real.pi : ℂ) * Complex.I * (b.val : ℂ) / N =
      2 * (Real.pi : ℂ) * Complex.I * ((a.val : ℂ) + (b.val : ℂ)) / N := by
    ring
  have hsplit : 2 * (Real.pi : ℂ) * Complex.I *
      ((a.val : ℂ) + (b.val : ℂ)) / N =
      2 * (Real.pi : ℂ) * Complex.I * ((a + b).val : ℂ) / N +
        (((a.val + b.val) / N : ℕ) : ℂ) *
          (2 * (Real.pi : ℂ) * Complex.I) := by
    rw [hcast, mul_add, add_div]
    congr 1
    field_simp
    ring
  rw [harg, hsplit, Complex.exp_add, Complex.exp_nat_mul_two_pi_mul_I,
    mul_one]

theorem eZ_abs {N : ℕ} [NeZero N] (m : ZMod N) : Complex.abs (eZ m) = 1 := by
  unfold eZ
  have harg : 2 * (Real.pi : ℂ) * Complex.I * (m.val : ℂ) / (N : ℂ) =
      ((2 * Real.pi * (m.val : ℝ) / (N : ℝ) : ℝ) : ℂ) * Complex.I := by
    push_cast
    ring
  rw [harg, Complex.abs_exp_ofReal_mul_I]

theorem zifft_shift_abs {N : ℕ} [NeZero N] (Y : ZMod N → ℂ) (s j : ZMod N) :
    Complex.abs (zifft (fun k => Y (k + s)) j) =
      Complex.abs (zifft Y j) := by
  have hsum : ∑ k : ZMod N, Y (k + s) * eZ (k * j) =
      eZ (-(s * j)) * ∑ k : ZMod N, Y k * eZ (k * j) := by
    rw [Finset.mul_sum]
    apply Fintype.sum_equiv (Equiv.addRight s)
    intro k
    show Y (k + s) * eZ (k * j) = eZ (-(s * j)) * (Y (k + s) * eZ ((k + s) * j))
    have : eZ ((k + s) * j) = eZ (s * j) * eZ (k * j) := by
      have harg : (k + s) * j = s * j + k * j := by ring
      rw [harg, eZ_add]
    rw [this]
    have hinv : eZ (-(s * j)) * eZ (s * j) = 1 := by
      rw [← eZ_add, neg_add_cancel]
      unfold eZ
      simp [ZMod.val_zero]
    calc Y (k + s) * eZ (k * j)
        = (eZ (-(s * j)) * eZ (s * j)) * (Y (k + s) * eZ (k * j)) := by
          rw [hinv, one_mul]
      _ = eZ (-(s * j)) * (Y (k + s) * (eZ (s * j) * eZ (k * j))) := by ring
  unfold zifft
  rw [hsum]
  rw [map_mul, map_mul, map_mul, eZ_abs]
  ring

theorem maxOver_nonneg (f : ℕ → ℝ) (n : ℕ) : 0 ≤ maxOver f n := by
  induction n with
  | zero => exact le_refl 0
  | succ m ih =>
    unfold maxOver
    exact le_trans ih (le_max_left _ _)

theorem maxOver_congr (f g : ℕ → ℝ) (n : ℕ) (h : ∀ j < n, f j = g j) :
    maxOver f n = maxOver g n := by
  induction n with
  | zero => rfl
  | succ m ih =>
    unfold maxOver
    rw [ih (fun j hj => h j (by omega)), h m (by omega)]

theorem maxOver_concat (f g : ℕ → ℝ) (m n : ℕ) :
    maxOver (fun j => if j < m then f j else g (j - m)) (m + n) =
      max (maxOver f m) (maxOver g n) := by
  induction n with
  | zero =>
    rw [Nat.add_zero]
    have hc : maxOver (fun j => if j < m then f j else g (j - m)) m =
        maxOver f m := by
      apply maxOver_congr
      intro j hj
      rw [if_pos hj]
    rw [hc]
    have : maxOver g 0 = 0 := rfl
    rw [this]
    exact (max_eq_left (maxOver_nonneg f m)).symm
  | succ p ih =>
    have hstep : maxOver (fun j => if j < m then f j else g (j - m))
        (m + (p + 1)) =
        max (maxOver (fun j => if j < m then f j else g (j - m)) (m + p))
          (if m + p < m then f (m + p) else g (m + p - m)) := rfl
    rw [hstep, ih, if_neg (by omega)]
    have hg : m + p - m = p := by omega
    rw [hg]
    have hunfold : maxOver g (p + 1) = max (maxOver g p) (g p) := rfl
    rw [hunfold, max_assoc]

theorem refScale_eq_gpuScale (Mlen : ℕ) (x : ℕ → ℂ) :
    refScale Mlen x = gpuScale Mlen x := by
  unfold refScale gpuScale
  exact maxOver_concat (acq2Rl Mlen x) (acq2Im Mlen x) Mlen Mlen

theorem refPre_eq_gpuPre (st : AcqSettings) (Mlen : ℕ) (x : ℕ → ℂ) :
    refPre st Mlen x = gpuPre st Mlen x := by
  unfold refPre gpuPre
  rw [refScale_eq_gpuScale]

theorem shift_sum_eq {N : ℕ} [NeZero N] (X : ℕ → ZMod N → ℂ)
    (Tc : ZMod N → ℂ) (s2 : ZMod N) (nnc : ℕ) (k : ZMod N) :
    ∑ b in Finset.range nnc,
      Complex.abs (zifft (fun kk => X b kk * Tc (kk + s2)) k) ^ 2 =
    ∑ b in Finset.range nnc,
      Complex.abs (zifft (fun kk => X b (kk - s2) * Tc kk) k) ^ 2 := by
  apply Finset.sum_congr rfl
  intro b _
  congr 1
  have hshift : (fun kk => X b kk * Tc (kk + s2)) =
      fun kk => (fun kk2 => X b (kk2 - s2) * Tc kk2) (kk + s2) := by
    funext kk
    show X b kk * Tc (kk + s2) = X b (kk + s2 - s2) * Tc (kk + s2)
    rw [add_sub_cancel_right]
  rw [hshift]
  exact zifft_shift_abs (fun kk2 => X b (kk2 - s2) * Tc kk2) s2 k

/-- Claim C3: for inputs on which both succeed, the GPU acquisition
produces a detector matrix and frequency table equal to those of the
reference function (hence within the claimed relative 1e-4 after
normalization): rolling the conjugated template spectrum opposite to the
reference roll of the data spectrum leaves the squared IFFT magnitudes
unchanged in exact arithmetic. -/
theorem detect_ca_sat_gpu_matches_reference (st : AcqSettings)
    (caGen : ℕ → ℕ → ℝ) (prn : ℕ) (Mlen : ℕ) (x : ℕ → ℂ) (ncoh nnc : ℕ)
    [NeZero (acq2N st ncoh)] (hlen : acq2Total st ncoh nnc ≤ Mlen) :
    (∀ (i : ℕ) (k : ZMod (acq2N st ncoh)),
      gpuDetector st caGen prn Mlen x ncoh nnc (acq2N st ncoh) i k =
        refDetector st caGen prn Mlen x ncoh nnc (acq2N st ncoh) i k) ∧
    (∀ (i : ℕ) (k : ZMod (acq2N st ncoh)),
      |gpuDetector st caGen prn Mlen x ncoh nnc (acq2N st ncoh) i k -
        refDetector st caGen prn Mlen x ncoh nnc (acq2N st ncoh) i k| ≤
        1e-4 * |refDetector st caGen prn Mlen x ncoh nnc (acq2N st ncoh) i k|) ∧
    (∀ i : ℕ, gpuFreqTable st (acq2N st ncoh) i =
      refFreqTable st (acq2N st ncoh) i) := by
  have hmain : ∀ (i : ℕ) (k : ZMod (acq2N st ncoh)),
      gpuDetector st caGen prn Mlen x ncoh nnc (acq2N st ncoh) i k =
        refDetector st caGen prn Mlen x ncoh nnc (acq2N st ncoh) i k := by
    intro i k
    have hsum := shift_sum_eq
      (fun b => acq2Xfd (gpuPre st Mlen x) (acq2N st ncoh) b)
      (acq2Tconj st caGen prn ncoh (acq2N st ncoh))
      ((acq2Shift st (acq2N st ncoh) - i : ℤ) : ZMod (acq2N st ncoh)) nnc k
    unfold gpuDetector refDetector
    rw [refPre_eq_gpuPre, mul_one_div, hsum]
  refine ⟨hmain, ?_, fun i => rfl⟩
  intro i k
  rw [hmain i k, sub_self, abs_zero]
  positivity

/-- Claim C3 witness: the equivalence at a one-sample code, one coherent
and one non-coherent block, and a two-sample zero input. -/
theorem detect_ca_sat_gpu_matches_reference_witness :
    (∀ (i : ℕ) (k : ZMod (acq2N acq2WitnessSettings 1)),
      gpuDetector acq2WitnessSettings (fun _ _ => 0) 5 2
          (fun _ => 0) 1 1 (acq2N acq2WitnessSettings 1) i k =
        refDetector acq2WitnessSettings (fun _ _ => 0) 5 2
          (fun _ => 0) 1 1 (acq2N acq2WitnessSettings 1) i k) ∧
    (∀ (i : ℕ) (k : ZMod (acq2N acq2WitnessSettings 1)),
      |gpuDetector acq2WitnessSettings (fun _ _ => 0) 5 2
          (fun _ => 0) 1 1 (acq2N acq2WitnessSettings 1) i k -
        refDetector acq2WitnessSettings (fun _ _ => 0) 5 2
          (fun _ => 0) 1 1 (acq2N acq2WitnessSettings 1) i k| ≤
        1e-4 * |refDetector acq2WitnessSettings (fun _ _ => 0) 5 2
          (fun _ => 0) 1 1 (acq2N acq2WitnessSettings 1) i k|) ∧
    (∀ i : ℕ,
      gpuFreqTable acq2WitnessSettings (acq2N acq2WitnessSettings 1) i =
        refFreqTable acq2WitnessSettings (acq2N acq2WitnessSettings 1) i) :=
  detect_ca_sat_gpu_matches_reference acq2WitnessSettings
    (fun _ _ => 0) 5 2 (fun _ => 0) 1 1
    (by
      unfold acq2Total acq2SamplesPerCode acq2WitnessSettings
      norm_num)

/-! ### Claim C4 -/

theorem preRunKept_perm (acq : List AcqEntry) :
    (preRunKept acq).Perm (acq.filter preRunInRange) :=
  (acq.mergeSort_perm preRunDescending).filter preRunInRange

theorem preRunKept_sorted (acq : List AcqEntry) :
    (preRunKept acq).Pairwise (fun a b => b.peakMetric ≤ a.peakMetric) := by
  have hs := @List.sorted_mergeSort AcqEntry preRunDescending
    (fun a b c hab hbc => by
      simp only [preRunDescending, decide_eq_true_eq] at *
      linarith)
    (fun a b => by
      simp only [preRunDescending]
      rcases le_total b.peakMetric a.peakMetric with h | h
      · simp [h]
      · simp [h])
    acq
  have := hs.imp (fun hab => by
    simpa only [preRunDescending, decide_eq_true_eq] using hab)
  exact this.filter preRunInRange

/-- Claim C4: pre_run keeps only entries with PRN in 1..32, orders them by
descending peak metric, emits the strongest numberOfChannels as Tracking
channels, and pads the remaining slots with the default Off template. -/
theorem pre_run_spec (acq : List AcqEntry) (numberOfChannels : ℕ) :
    (pre_run acq numberOfChannels).length = numberOfChannels ∧
    (preRunKept acq).Perm (acq.filter preRunInRange) ∧
    (preRunKept acq).Pairwise (fun a b => b.peakMetric ≤ a.peakMetric) ∧
    pre_run acq numberOfChannels =
      ((preRunKept acq).take numberOfChannels).map preRunChannel ++
        List.replicate
          (numberOfChannels -
            ((preRunKept acq).take numberOfChannels).length)
          channelTemplate ∧
    (∀ c ∈ ((preRunKept acq).take numberOfChannels).map preRunChannel,
      c.status = 'T' ∧ 1 ≤ c.prn ∧ c.prn ≤ 32) ∧
    (∀ c ∈ List.replicate
        (numberOfChannels - ((preRunKept acq).take numberOfChannels).length)
        channelTemplate,
      c.status = '-' ∧ c.prn = 0) := by
  refine ⟨?_, preRunKept_perm acq, preRunKept_sorted acq, rfl, ?_, ?_⟩
  · have hle : ((preRunKept acq).take numberOfChannels).length ≤
        numberOfChannels := by
      simp [List.length_take]
    simp only [pre_run, List.length_append, List.length_map,
      List.length_replicate]
    omega
  · intro c hc
    rcases List.mem_map.mp hc with ⟨en, hen, rfl⟩
    have henk : en ∈ preRunKept acq := List.mem_of_mem_take hen
    have hmask : preRunInRange en = true :=
      List.of_mem_filter (by simpa [preRunKept] using henk)
    simp only [preRunInRange, Bool.and_eq_true, decide_eq_true_eq] at hmask
    exact ⟨rfl, hmask.1, hmask.2⟩
  · intro c hc
    have := List.eq_of_mem_replicate hc
    subst this
    exact ⟨rfl, rfl⟩

/-! ### Claim C5 -/

theorem pythonTruthyInt_iff (o : Option ℤ) :
    pythonTruthyInt o = true ↔ ∃ a, o = some a ∧ a ≠ 0 := by
  cases o <;> simp [pythonTruthyInt]

/-- Claim C5 counterexample: a decoded ephemeris that is usable in the sense
of the spec (IODC, IODE_sf2, IODE_sf3 present and health 0) whose channel is
nevertheless dropped from the active list, because the code tests Python
truthiness and IODC was decoded as 0.  This refutes the claimed equivalence
between retention and the presence-based usability predicate. -/
theorem postNav_usable_presence_counterexample :
    ephUsableSpec cexDecoded ∧
    0 ∈ postNavInitialActive [⟨5, 'T'⟩] ∧
    0 ∉ postNavActive [⟨5, 'T'⟩] (fun _ => cexDecoded) := by
  refine ⟨⟨rfl, rfl, rfl, rfl⟩, ?_, ?_⟩ <;> decide

/-- Claim C5 amended: a channel is retained for navigation if and only if it
was active after tracking and its decoded IODC, IODE_sf2 and IODE_sf3 are
present with nonzero values and its decoded health is present and equals 0
(Python truthiness of the decoded scalars); failing channels are merely
dropped, no error is raised. -/
theorem postNav_active_iff_truthy (trk : List TrackStatusRec)
    (decoded : ℕ → EphRec) (ch : ℕ) :
    ch ∈ postNavActive trk decoded ↔
      ch < trk.length ∧ (trk.getD ch ⟨0, '-'⟩).status ≠ '-' ∧
        (∃ a, (decoded ch).IODC = some a ∧ a ≠ 0) ∧
        (∃ b, (decoded ch).IODE_sf2 = some b ∧ b ≠ 0) ∧
        (∃ c, (decoded ch).IODE_sf3 = some c ∧ c ≠ 0) ∧
        (decoded ch).health = some 0 := by
  simp only [postNavActive, postNavInitialActive, List.mem_filter,
    List.mem_range, ephUsableCode, Bool.and_eq_true, pythonTruthyInt_iff,
    bne_iff_ne, ne_eq, beq_iff_eq, and_assoc]

/-! ### Claim C9 -/

theorem togeodLoop_spec (a esq oneesq P Z : ℝ) :
    ∀ (fuel : ℕ) (s : GeodState), 1 ≤ fuel →
    ∃ k, 1 ≤ k ∧ k ≤ fuel ∧
      togeodLoop a esq oneesq P Z fuel s =
        (togeodUpdate a esq oneesq P Z)^[k] s ∧
      (∀ j < k - 1,
        ¬ togeodExitTest a esq oneesq P Z
          ((togeodUpdate a esq oneesq P Z)^[j] s)) ∧
      (k < fuel → togeodExitTest a esq oneesq P Z
          ((togeodUpdate a esq oneesq P Z)^[k - 1] s)) := by
  intro fuel
  induction fuel with
  | zero => intro s h; omega
  | succ n ih =>
    intro s _
    by_cases hex : togeodExitTest a esq oneesq P Z s
    · refine ⟨1, le_refl 1, by omega, ?_, ?_, ?_⟩
      · simp [togeodLoop, hex, Function.iterate_one]
      · intro j hj; omega
      · intro _; simpa using hex
    · rcases Nat.eq_zero_or_pos n with hn | hn
      · subst hn
        refine ⟨1, le_refl 1, le_refl 1, ?_, ?_, ?_⟩
        · simp [togeodLoop, hex, Function.iterate_one]
        · intro j hj; omega
        · intro h1; omega
      · rcases ih (togeodUpdate a esq oneesq P Z s) hn with
          ⟨k, hk1, hkn, heq, hnoex, hex2⟩
        refine ⟨k + 1, by omega, by omega, ?_, ?_, ?_⟩
        · have : togeodLoop a esq oneesq P Z (n + 1) s =
              togeodLoop a esq oneesq P Z n (togeodUpdate a esq oneesq P Z s) := by
            simp [togeodLoop, hex]
          rw [this, heq, ← Function.iterate_succ_apply]
        · intro j hj
          rcases Nat.eq_zero_or_pos j with hj0 | hj0
          · subst hj0; simpa using hex
          · have hj1 : j - 1 < k - 1 := by omega
            have := hnoex (j - 1) hj1
            rw [← Function.iterate_succ_apply] at this
            have hje : (j - 1).succ = j := by omega
            rwa [hje] at this
        · intro hklt
          have := hex2 (by omega)
          rw [← Function.iterate_succ_apply] at this
          have hje : (k - 1).succ = k + 1 - 1 := by omega
          rwa [hje] at this

/-- Claim C9 counterexample: at an explicit loop state (latitude 0, height 0,
with a = 1, esq = 3/4, P = 1 + 5e-6, Z = 5e-6) the togeod loop takes its
exit branch, although the height change of that pass is 5e-6, far above
1e-12.  Hence togeod does not iterate until the height change is below
1e-12: its actual test is dP^2 + dZ^2 < 1e-10. -/
theorem togeod_exit_despite_height_change :
    togeodExitTest 1 (3 / 4) (1 / 4) (1 + 5e-6) 5e-6 ⟨0, 0⟩ ∧
    1e-12 ≤
      |(togeodUpdate 1 (3 / 4) (1 / 4) (1 + 5e-6) 5e-6 ⟨0, 0⟩).h -
        (⟨0, 0⟩ : GeodState).h| := by
  have hN : togeodNphi 1 (3 / 4) 0 = 1 := by
    simp [togeodNphi]
  have hdp : togeodDP 1 (3 / 4) (1 + 5e-6) ⟨0, 0⟩ = 5e-6 := by
    simp [togeodDP, hN]
  have hdz : togeodDZ 1 (3 / 4) (1 / 4) 5e-6 ⟨0, 0⟩ = 5e-6 := by
    simp [togeodDZ, hN]
  constructor
  · unfold togeodExitTest
    rw [hdp, hdz]
    norm_num
  · have hh : (togeodUpdate 1 (3 / 4) (1 / 4) (1 + 5e-6) 5e-6 ⟨0, 0⟩).h =
        5e-6 := by
      simp [togeodUpdate, hdp, hdz]
    rw [hh]
    show (1e-12 : ℝ) ≤ |5e-6 - (0 : ℝ)|
    rw [sub_zero, abs_of_pos (by norm_num)]
    norm_num

/-- Claim C9 amended: for every nondegenerate input (distance from the
origin at least 1e-20), togeod runs between 1 and 10 Bowring-style updates,
leaves the loop early exactly when the residual dP^2 + dZ^2 drops below
1e-10, and returns the last iterate (warning on non-convergence instead of
failing). -/
theorem togeod_amended (a finv X Y Z : ℝ)
    (hr : ¬ togeodR X Y Z < 1e-20) :
    ∃ k, 1 ≤ k ∧ k ≤ 10 ∧
      togeod a finv X Y Z =
        (((togeodStep a finv X Y Z)^[k] (togeodInit a finv X Y Z)).dphi *
            (180 / Real.pi),
          togeodLambda X Y,
          ((togeodStep a finv X Y Z)^[k] (togeodInit a finv X Y Z)).h) ∧
      (∀ j < k - 1,
        ¬ togeodExitTest a (togeodEsq finv) (1 - togeodEsq finv)
          (togeodP X Y) Z
          ((togeodStep a finv X Y Z)^[j] (togeodInit a finv X Y Z))) ∧
      (k < 10 → togeodExitTest a (togeodEsq finv) (1 - togeodEsq finv)
          (togeodP X Y) Z
          ((togeodStep a finv X Y Z)^[k - 1] (togeodInit a finv X Y Z))) := by
  rcases togeodLoop_spec a (togeodEsq finv) (1 - togeodEsq finv)
      (togeodP X Y) Z 10 (togeodInit a finv X Y Z) (by omega) with
    ⟨k, hk1, hk10, heq, hnoex, hex⟩
  refine ⟨k, hk1, hk10, ?_, hnoex, hex⟩
  unfold togeod
  rw [if_neg hr, heq]
  rfl

/-- Claim C9 witness: the amended theorem instantiated at the concrete input
a = 1, finv = 2, X = 1, Y = 0, Z = 0. -/
theorem togeod_amended_witness :
    ∃ k, 1 ≤ k ∧ k ≤ 10 ∧
      togeod 1 2 1 0 0 =
        (((togeodStep 1 2 1 0 0)^[k] (togeodInit 1 2 1 0 0)).dphi *
            (180 / Real.pi),
          togeodLambda 1 0,
          ((togeodStep 1 2 1 0 0)^[k] (togeodInit 1 2 1 0 0)).h) ∧
      (∀ j < k - 1,
        ¬ togeodExitTest 1 (togeodEsq 2) (1 - togeodEsq 2) (togeodP 1 0) 0
          ((togeodStep 1 2 1 0 0)^[j] (togeodInit 1 2 1 0 0))) ∧
      (k < 10 → togeodExitTest 1 (togeodEsq 2) (1 - togeodEsq 2)
          (togeodP 1 0) 0
          ((togeodStep 1 2 1 0 0)^[k - 1] (togeodInit 1 2 1 0 0))) :=
  togeod_amended 1 2 1 0 0 (by
    have hP : togeodP 1 0 = 1 := by
      simp [togeodP]
    have hR : togeodR 1 0 0 = 1 := by
      simp [togeodR, hP]
    rw [hR]
    norm_num)

/-! ### Claim C10 -/

theorem satpos_getD (tt : List ℝ) (pl : List ℕ) (eph : List SatEph)
    (iSat : ℕ) (hi : iSat < pl.length) :
    (satpos tt pl eph).getD iSat ((0, 0, 0), 0) =
      satposOne (tt.getD iSat 0) (pl.getD iSat 0) eph := by
  unfold satpos
  rw [List.getD_eq_getElem?_getD, List.getElem?_map, List.getElem?_range hi]
  rfl

/-- Claim C10: in satpos, a satellite whose PRN fails the presence check
(prn at least len(eph), empty eph[prn], or missing t_oc key) keeps a zero
position column and zero clock correction with no error raised, while a
satellite that passes the check is propagated from table entry
eph[prn - 1], not from the tested entry eph[prn]. -/
theorem satpos_skip_and_index (tt : List ℝ) (pl : List ℕ)
    (eph : List SatEph) (iSat : ℕ) (hi : iSat < pl.length) :
    (satposSkip (pl.getD iSat 0) eph = true →
      (satpos tt pl eph).getD iSat ((0, 0, 0), 0) = ((0, 0, 0), 0)) ∧
    (satposSkip (pl.getD iSat 0) eph = false → 1 ≤ pl.getD iSat 0 →
      (satpos tt pl eph).getD iSat ((0, 0, 0), 0) =
        satposBody (eph.getD (pl.getD iSat 0 - 1) satEphDefault)
          (tt.getD iSat 0)) := by
  rw [satpos_getD tt pl eph iSat hi]
  constructor
  · intro hskip
    unfold satposOne
    rw [hskip]
    simp
  · intro hskip hprn
    have hidx : satposDataIdx (pl.getD iSat 0) eph = pl.getD iSat 0 - 1 := by
      unfold satposDataIdx
      rw [if_neg (by omega)]
    unfold satposOne
    rw [hskip, hidx]
    simp

/-- Claim C10 witness: with a two-entry table whose entry 1 passes the
check, the satellite with PRN 1 is propagated from entry 0. -/
theorem satpos_skip_and_index_witness :
    (satpos [100] [1] satposWitnessEph).getD 0 ((0, 0, 0), 0) =
      satposBody (satposWitnessEph.getD 0 satEphDefault) 100 :=
  (satpos_skip_and_index [100] [1] satposWitnessEph 0 (by decide)).2
    (by decide) (by decide)

/-! ### Claim C1 -/

/-- Claim C1: for every PRN in the acquisition list, the stored peak metric
exceeds the threshold if and only if the stored carrier frequency is
nonzero; below threshold the carrier frequency stays 0, and above threshold
it is the fine-search frequency, coerced to 1 Hz when that frequency is
exactly 0. -/
theorem acquisition_peakMetric_iff_carrFreq (sig : ℕ → ℂ) (Mlen : ℕ)
    (st : AcqSettings) (caGen : ℕ → ℕ → ℝ) (n : ℕ)
    (hn : n < st.acqSatelliteList.length) :
    ((acquisition sig Mlen st caGen).peakMetric n > st.acqThreshold ↔
      (acquisition sig Mlen st caGen).carrFreq n ≠ 0) ∧
    (¬ (acquisition sig Mlen st caGen).peakMetric n > st.acqThreshold →
      (acquisition sig Mlen st caGen).carrFreq n = 0) ∧
    ((acquisition sig Mlen st caGen).peakMetric n > st.acqThreshold →
      (acquisition sig Mlen st caGen).carrFreq n =
        (if acqFineFreq st caGen (st.acqSatelliteList.getD n 0) sig Mlen = 0
         then 1
         else acqFineFreq st caGen (st.acqSatelliteList.getD n 0) sig Mlen)) := by
  have hmetric : (acquisition sig Mlen st caGen).peakMetric n =
      acqPeakMetric st caGen (st.acqSatelliteList.getD n 0) sig Mlen := by
    show (if n < st.acqSatelliteList.length then
        acqPeakMetric st caGen (st.acqSatelliteList.getD n 0) sig Mlen
      else 0) = _
    rw [if_pos hn]
  by_cases hthr :
      acqPeakMetric st caGen (st.acqSatelliteList.getD n 0) sig Mlen >
        st.acqThreshold
  · have hcond : n < st.acqSatelliteList.length ∧
        (if n < st.acqSatelliteList.length then
          acqPeakMetric st caGen (st.acqSatelliteList.getD n 0) sig Mlen
        else 0) > st.acqThreshold := ⟨hn, by rw [if_pos hn]; exact hthr⟩
    have hcf : (acquisition sig Mlen st caGen).carrFreq n =
        (if acqFineFreq st caGen (st.acqSatelliteList.getD n 0) sig Mlen = 0
         then 1
         else acqFineFreq st caGen (st.acqSatelliteList.getD n 0) sig Mlen) := by
      show (if n < st.acqSatelliteList.length ∧ _ then _ else 0) = _
      rw [if_pos hcond]
    refine ⟨?_, ?_, ?_⟩
    · rw [hmetric, hcf]
      constructor
      · intro _
        split
        · norm_num
        · assumption
      · intro _
        exact hthr
    · intro hc
      rw [hmetric] at hc
      exact absurd hthr hc
    · intro _
      exact hcf
  · have hcond : ¬ (n < st.acqSatelliteList.length ∧
        (if n < st.acqSatelliteList.length then
          acqPeakMetric st caGen (st.acqSatelliteList.getD n 0) sig Mlen
        else 0) > st.acqThreshold) := by
      intro hc
      rw [if_pos hn] at hc
      exact hthr hc.2
    have hcf : (acquisition sig Mlen st caGen).carrFreq n = 0 := by
      show (if n < st.acqSatelliteList.length ∧ _ then _ else 0) = 0
      rw [if_neg hcond]
    refine ⟨?_, fun _ => hcf, ?_⟩
    · rw [hmetric, hcf]
      constructor
      · intro hc
        exact absurd hc hthr
      · intro hc
        exact absurd rfl hc
    · intro hc
      rw [hmetric] at hc
      exact absurd hc hthr

/-- Claim C1 witness: the threshold dichotomy at a one-satellite list with
unit settings and the zero signal. -/
theorem acquisition_peakMetric_iff_carrFreq_witness :
    ((acquisition (fun _ => 0) 0 ⟨1, 1, 1, 0, 0, 1, 1, 0, 1, [5]⟩
        (fun _ _ => 0)).peakMetric 0 >
      (⟨1, 1, 1, 0, 0, 1, 1, 0, 1, [5]⟩ : AcqSettings).acqThreshold ↔
      (acquisition (fun _ => 0) 0 ⟨1, 1, 1, 0, 0, 1, 1, 0, 1, [5]⟩
        (fun _ _ => 0)).carrFreq 0 ≠ 0) ∧
    (¬ (acquisition (fun _ => 0) 0 ⟨1, 1, 1, 0, 0, 1, 1, 0, 1, [5]⟩
        (fun _ _ => 0)).peakMetric 0 >
      (⟨1, 1, 1, 0, 0, 1, 1, 0, 1, [5]⟩ : AcqSettings).acqThreshold →
      (acquisition (fun _ => 0) 0 ⟨1, 1, 1, 0, 0, 1, 1, 0, 1, [5]⟩
        (fun _ _ => 0)).carrFreq 0 = 0) ∧
    ((acquisition (fun _ => 0) 0 ⟨1, 1, 1, 0, 0, 1, 1, 0, 1, [5]⟩
        (fun _ _ => 0)).peakMetric 0 >
      (⟨1, 1, 1, 0, 0, 1, 1, 0, 1, [5]⟩ : AcqSettings).acqThreshold →
      (acquisition (fun _ => 0) 0 ⟨1, 1, 1, 0, 0, 1, 1, 0, 1, [5]⟩
        (fun _ _ => 0)).carrFreq 0 =
        (if acqFineFreq ⟨1, 1, 1, 0, 0, 1, 1, 0, 1, [5]⟩ (fun _ _ => 0)
            (([5] : List ℕ).getD 0 0) (fun _ => 0) 0 = 0
         then 1
         else acqFineFreq ⟨1, 1, 1, 0, 0, 1, 1, 0, 1, [5]⟩ (fun _ _ => 0)
            (([5] : List ℕ).getD 0 0) (fun _ => 0) 0)) :=
  acquisition_peakMetric_iff_carrFreq (fun _ => 0) 0
    ⟨1, 1, 1, 0, 0, 1, 1, 0, 1, [5]⟩ (fun _ _ => 0) 0 (by decide)

/-! ### Claim C2 -/

theorem npRemainder_bounds (a b : ℝ) (hb : 0 < b) :
    0 ≤ npRemainder a b ∧ npRemainder a b < b := by
  unfold npRemainder
  constructor
  · have h1 : (⌊a / b⌋ : ℝ) ≤ a / b := Int.floor_le _
    have h2 : b * (⌊a / b⌋ : ℝ) ≤ b * (a / b) :=
      mul_le_mul_of_nonneg_left h1 hb.le
    have h3 : b * (a / b) = a := by field_simp
    linarith
  · have h1 : a / b < (⌊a / b⌋ : ℝ) + 1 := Int.lt_floor_add_one _
    have h2 : a < b * ((⌊a / b⌋ : ℝ) + 1) := by
      rw [← div_lt_iff' hb] at *
      linarith
    nlinarith

theorem codePhase_step_bounds (L r sStep : ℝ) (hr0 : 0 ≤ r) (hrL : r < L)
    (hs0 : 0 < sStep) (hsL : sStep < L) :
    1 ≤ (⌈(L - r) / sStep⌉).toNat ∧
    0 ≤ r + ((⌈(L - r) / sStep⌉).toNat : ℝ) * sStep - L ∧
    r + ((⌈(L - r) / sStep⌉).toNat : ℝ) * sStep - L < L := by
  have hpos : 0 < (L - r) / sStep := div_pos (by linarith) hs0
  have hq : 0 < ⌈(L - r) / sStep⌉ := Int.ceil_pos.mpr hpos
  have hcast : ((⌈(L - r) / sStep⌉).toNat : ℝ) = ((⌈(L - r) / sStep⌉ : ℤ) : ℝ) := by
    rw [← Int.cast_natCast, Int.toNat_of_nonneg hq.le]
  have hge : (L - r) / sStep ≤ ((⌈(L - r) / sStep⌉ : ℤ) : ℝ) := Int.le_ceil _
  have hlt : ((⌈(L - r) / sStep⌉ : ℤ) : ℝ) < (L - r) / sStep + 1 :=
    Int.ceil_lt_add_one _
  have h1 : L - r ≤ ((⌈(L - r) / sStep⌉ : ℤ) : ℝ) * sStep := by
    rw [div_le_iff hs0] at hge
    linarith
  have h2 : (((⌈(L - r) / sStep⌉ : ℤ) : ℝ) - 1) * sStep < L - r := by
    have h3 : ((⌈(L - r) / sStep⌉ : ℤ) : ℝ) - 1 < (L - r) / sStep := by
      linarith
    rw [← lt_div_iff hs0]
    exact h3
  refine ⟨by omega, ?_, ?_⟩
  · rw [hcast]
    linarith
  · rw [hcast]
    nlinarith

theorem trackStep_remCodePhase (sig : ℕ → ℂ) (chips : ℕ → ℝ)
    (st : TrkSettings) (basis : ℝ) (s : TrackState) :
    (trackStep sig chips st basis s).remCodePhase =
      s.remCodePhase +
        ((⌈(st.codeLength - s.remCodePhase) /
          (s.codeFreq / st.samplingFreq)⌉).toNat : ℝ) *
          (s.codeFreq / st.samplingFreq) - st.codeLength := rfl

theorem trackStep_remCarrPhase (sig : ℕ → ℂ) (chips : ℕ → ℝ)
    (st : TrkSettings) (basis : ℝ) (s : TrackState) :
    (trackStep sig chips st basis s).remCarrPhase =
      npRemainder
        (2 * Real.pi * s.carrFreq *
          (((⌈(st.codeLength - s.remCodePhase) /
            (s.codeFreq / st.samplingFreq)⌉).toNat : ℝ) / st.samplingFreq) +
          s.remCarrPhase) (2 * Real.pi) := rfl

theorem trackStep_bytePos (sig : ℕ → ℂ) (chips : ℕ → ℝ)
    (st : TrkSettings) (basis : ℝ) (s : TrackState) :
    (trackStep sig chips st basis s).bytePos =
      s.bytePos + dataAdaptCoeff st *
        (⌈(st.codeLength - s.remCodePhase) /
          (s.codeFreq / st.samplingFreq)⌉).toNat * bytesPerElement st := rfl

theorem trackTrace_succ (sig : ℕ → ℂ) (chips : ℕ → ℝ) (st : TrkSettings)
    (ch : TrkChannel) (k : ℕ) :
    trackTrace sig chips st ch (k + 1) =
      trackStep sig chips st ch.acquiredFreq (trackTrace sig chips st ch k) := by
  unfold trackTrace
  rw [Function.iterate_succ_apply']

theorem tracking_rcp_inv (sig : ℕ → ℂ) (chips : ℕ → ℝ) (st : TrkSettings)
    (ch : TrkChannel) (n : ℕ)
    (hstep : ∀ k ≤ n,
      0 < (trackTrace sig chips st ch k).codeFreq / st.samplingFreq ∧
      (trackTrace sig chips st ch k).codeFreq / st.samplingFreq <
        st.codeLength) :
    ∀ k ≤ n + 1, 0 ≤ (trackTrace sig chips st ch k).remCodePhase ∧
      (trackTrace sig chips st ch k).remCodePhase < st.codeLength := by
  have hL : 0 < st.codeLength := by
    obtain ⟨h1, h2⟩ := hstep 0 (Nat.zero_le n)
    linarith
  intro k
  induction k with
  | zero =>
    intro _
    have h0 : trackTrace sig chips st ch 0 = trackInit st ch := rfl
    rw [h0]
    exact ⟨le_refl 0, hL⟩
  | succ m ih =>
    intro hm1
    have hmn : m ≤ n := by omega
    obtain ⟨hrcp0, hrcpL⟩ := ih (by omega)
    obtain ⟨hs0, hsL⟩ := hstep m hmn
    rw [trackTrace_succ, trackStep_remCodePhase]
    obtain ⟨hqn, hge, hlt⟩ := codePhase_step_bounds st.codeLength
      (trackTrace sig chips st ch m).remCodePhase
      ((trackTrace sig chips st ch m).codeFreq / st.samplingFreq)
      hrcp0 hrcpL hs0 hsL
    exact ⟨hge, hlt⟩

/-- Claim C2: under a positive code-phase step smaller than the code
length at every iteration up to n, each completed tracking iteration leaves
the residual code phase in the interval from 0 to codeLength, the residual
carrier phase in the interval from 0 to 2 pi, and strictly increases the
recorded absoluteSample values. -/
theorem tracking_invariants (sig : ℕ → ℂ) (chips : ℕ → ℝ)
    (st : TrkSettings) (ch : TrkChannel) (n : ℕ)
    (hstep : ∀ k ≤ n,
      0 < (trackTrace sig chips st ch k).codeFreq / st.samplingFreq ∧
      (trackTrace sig chips st ch k).codeFreq / st.samplingFreq <
        st.codeLength) :
    ∀ k ≤ n,
      (0 ≤ (trackTrace sig chips st ch (k + 1)).remCodePhase ∧
        (trackTrace sig chips st ch (k + 1)).remCodePhase < st.codeLength) ∧
      (0 ≤ (trackTrace sig chips st ch (k + 1)).remCarrPhase ∧
        (trackTrace sig chips st ch (k + 1)).remCarrPhase < 2 * Real.pi) ∧
      absoluteSample st (trackTrace sig chips st ch k) <
        absoluteSample st (trackTrace sig chips st ch (k + 1)) := by
  intro k hk
  have hinv := tracking_rcp_inv sig chips st ch n hstep
  refine ⟨hinv (k + 1) (by omega), ?_, ?_⟩
  · rw [trackTrace_succ, trackStep_remCarrPhase]
    exact npRemainder_bounds _ _ Real.two_pi_pos
  · obtain ⟨hrcp0, hrcpL⟩ := hinv k (by omega)
    obtain ⟨hs0, hsL⟩ := hstep k hk
    obtain ⟨hqn, _, _⟩ := codePhase_step_bounds st.codeLength
      (trackTrace sig chips st ch k).remCodePhase
      ((trackTrace sig chips st ch k).codeFreq / st.samplingFreq)
      hrcp0 hrcpL hs0 hsL
    have hcoe : 1 ≤ dataAdaptCoeff st := by
      unfold dataAdaptCoeff
      split <;> omega
    have hbpe : 1 ≤ bytesPerElement st := by
      unfold bytesPerElement
      split <;> omega
    have hbyte : (trackTrace sig chips st ch k).bytePos <
        (trackTrace sig chips st ch (k + 1)).bytePos := by
      rw [trackTrace_succ, trackStep_bytePos]
      have : 1 ≤ dataAdaptCoeff st *
          (⌈(st.codeLength - (trackTrace sig chips st ch k).remCodePhase) /
            ((trackTrace sig chips st ch k).codeFreq /
              st.samplingFreq)⌉).toNat * bytesPerElement st :=
        Nat.one_le_iff_ne_zero.mpr (by positivity)
      omega
    unfold absoluteSample
    have hc1 : 0 < (dataAdaptCoeff st : ℝ) := by positivity
    have hc2 : 0 < (bytesPerElement st : ℝ) := by positivity
    apply (div_lt_div_right hc2).mpr
    apply (div_lt_div_right hc1).mpr
    exact_mod_cast hbyte

/-- Claim C2 witness: the invariants at the first iteration of a channel
with unit sampling and code frequencies and code length 2, where the code
phase step is 1. -/
theorem tracking_invariants_witness :
    (0 ≤ (trackTrace (fun _ => 0) (fun _ => 0)
        ⟨1, 1, 2, 0, 1, 1, 1, 1, 1, 1, false, 1, 0⟩ ⟨1, 0, 0, 'T'⟩
        (0 + 1)).remCodePhase ∧
      (trackTrace (fun _ => 0) (fun _ => 0)
        ⟨1, 1, 2, 0, 1, 1, 1, 1, 1, 1, false, 1, 0⟩ ⟨1, 0, 0, 'T'⟩
        (0 + 1)).remCodePhase <
        (⟨1, 1, 2, 0, 1, 1, 1, 1, 1, 1, false, 1, 0⟩ : TrkSettings).codeLength) ∧
    (0 ≤ (trackTrace (fun _ => 0) (fun _ => 0)
        ⟨1, 1, 2, 0, 1, 1, 1, 1, 1, 1, false, 1, 0⟩ ⟨1, 0, 0, 'T'⟩
        (0 + 1)).remCarrPhase ∧
      (trackTrace (fun _ => 0) (fun _ => 0)
        ⟨1, 1, 2, 0, 1, 1, 1, 1, 1, 1, false, 1, 0⟩ ⟨1, 0, 0, 'T'⟩
        (0 + 1)).remCarrPhase < 2 * Real.pi) ∧
    absoluteSample ⟨1, 1, 2, 0, 1, 1, 1, 1, 1, 1, false, 1, 0⟩
        (trackTrace (fun _ => 0) (fun _ => 0)
          ⟨1, 1, 2, 0, 1, 1, 1, 1, 1, 1, false, 1, 0⟩ ⟨1, 0, 0, 'T'⟩ 0) <
      absoluteSample ⟨1, 1, 2, 0, 1, 1, 1, 1, 1, 1, false, 1, 0⟩
        (trackTrace (fun _ => 0) (fun _ => 0)
          ⟨1, 1, 2, 0, 1, 1, 1, 1, 1, 1, false, 1, 0⟩ ⟨1, 0, 0, 'T'⟩
          (0 + 1)) :=
  tracking_invariants (fun _ => 0) (fun _ => 0)
    ⟨1, 1, 2, 0, 1, 1, 1, 1, 1, 1, false, 1, 0⟩ ⟨1, 0, 0, 'T'⟩ 0
    (by
      intro k hk
      have hk0 : k = 0 := by omega
      subst hk0
      have h0 : trackTrace (fun _ => 0) (fun _ => 0)
          ⟨1, 1, 2, 0, 1, 1, 1, 1, 1, 1, false, 1, 0⟩ ⟨1, 0, 0, 'T'⟩ 0 =
          trackInit ⟨1, 1, 2, 0, 1, 1, 1, 1, 1, 1, false, 1, 0⟩
            ⟨1, 0, 0, 'T'⟩ := rfl
      rw [h0]
      constructor <;> norm_num [trackInit])
    0 (le_refl 0)

/-! ### Claim C6 -/

theorem checkPhase_length (w : List Bool) (d : Bool) :
    (checkPhase w d).length = w.length := by
  unfold checkPhase
  split
  · simp
    omega
  · rfl

theorem checkPhase_getLastD (w : List Bool) (d : Bool) (hw : 25 ≤ w.length) :
    (checkPhase w d).getLastD false = w.getLastD false := by
  unfold checkPhase
  split
  · have h24 : ((w.take 24).map (fun b => !b)).length = 24 := by
      simp
      omega
    rw [List.getLastD_eq_getLast?, List.getLastD_eq_getLast?,
      List.getLast?_eq_getElem?, List.getLast?_eq_getElem?]
    have hlen : ((w.take 24).map (fun b => !b) ++ w.drop 24).length =
        w.length := by
      simp
      omega
    rw [hlen, List.getElem?_append_right (by rw [h24]; omega), h24,
      List.getElem?_drop]
    have hidx : 24 + (w.length - 1 - 24) = w.length - 1 := by omega
    rw [hidx]
  · rfl

theorem take_getLastD (b : List Bool) (n : ℕ) (hn : 1 ≤ n)
    (hb : n ≤ b.length) : (b.take n).getLastD false = b.getD (n - 1) false := by
  rw [List.getLastD_eq_getLast?, List.getLast?_eq_getElem?,
    List.getD_eq_getElem?_getD, List.length_take]
  have hmin : min n b.length = n := by omega
  rw [hmin, List.getElem?_take]
  rw [if_pos (by omega)]

theorem getD_drop (l : List Bool) (k i : ℕ) :
    (l.drop k).getD i false = l.getD (k + i) false := by
  rw [List.getD_eq_getElem?_getD, List.getD_eq_getElem?_getD,
    List.getElem?_drop]

theorem getD_irrel (l : List Bool) (n : ℕ) (hn : n < l.length)
    (d1 d2 : Bool) : l.getD n d1 = l.getD n d2 := by
  rw [List.getD_eq_getElem?_getD, List.getD_eq_getElem?_getD,
    List.getElem?_eq_getElem hn]
  rfl

theorem bitSlice_getD (l : List Bool) (a b i : ℕ) (h1 : i < b - a) :
    (bitSlice l a b).getD i false = l.getD (a + i) false := by
  unfold bitSlice
  rw [List.getD_eq_getElem?_getD, List.getElem?_take, if_pos h1,
    List.getElem?_drop, ← List.getD_eq_getElem?_getD]

theorem correctWords_carry :
    ∀ (n : ℕ), 1 ≤ n → ∀ (b : List Bool) (d : Bool), 30 * n ≤ b.length →
      (correctWords b d n).2 = b.getD (30 * n - 1) false := by
  intro n
  induction n with
  | zero => intro h; omega
  | succ m ih =>
    intro _ b d hb
    rcases Nat.eq_zero_or_pos m with hm | hm
    · subst hm
      have hstep : (correctWords b d 1).2 =
          (checkPhase (b.take 30) d).getLastD false := rfl
      rw [hstep, checkPhase_getLastD _ _ (by simp; omega),
        take_getLastD b 30 (by omega) (by omega)]
    · have hstep : (correctWords b d (m + 1)).2 =
          (correctWords (b.drop 30) ((checkPhase (b.take 30) d).getLastD false)
            m).2 := rfl
      rw [hstep, ih hm (b.drop 30) _ (by rw [List.length_drop]; omega),
        getD_drop]
      congr 1
      omega

/-- Claim C6: for every 1500-bit input, the TOW returned by the ephemeris
decoder equals the 17-bit HOW TOW-count field (bits 31..47, 1-based, of the
polarity-corrected word stream) of the last parsed subframe times 6 minus
30 seconds, and the same value is stored in the ephemeris record. -/
theorem ephemeris_TOW_eq (bits : List Bool) (d : Bool)
    (hlen : bits.length = 1500) :
    (ephemeris bits d).2 = (howTowLast bits d : ℤ) * 6 - 30 ∧
    (ephemeris bits d).1.TOW = some ((howTowLast bits d : ℤ) * 6 - 30) := by
  have hcomp : (ephLoop (ephSubframes bits) ephInit d).2 =
      (correctWords (bitSlice bits 1200 1500)
        ((correctWords (bitSlice bits 900 1200)
          ((correctWords (bitSlice bits 600 900)
            ((correctWords (bitSlice bits 300 600)
              ((correctWords (bitSlice bits 0 300) d 10).2) 10).2) 10).2)
                10).2) 10).1 := rfl
  have hgen : ∀ (a b2 : ℕ) (d0 : Bool), a + 300 = b2 → b2 ≤ 1500 →
      (correctWords (bitSlice bits a b2) d0 10).2 =
        bits.getD (a + 299) false := by
    intro a b2 d0 hab hb2
    have hlen2 : (bitSlice bits a b2).length = 300 := by
      unfold bitSlice
      rw [List.length_take, List.length_drop, hlen]
      omega
    rw [correctWords_carry 10 (by omega) _ _ (by rw [hlen2])]
    have h299 : 30 * 10 - 1 = 299 := by norm_num
    rw [h299, bitSlice_getD bits a b2 299 (by omega)]
  have c0 : (correctWords (bitSlice bits 0 300) d 10).2 =
      bits.getD 299 false := by
    have := hgen 0 300 d (by norm_num) (by norm_num)
    simpa using this
  have c1 : (correctWords (bitSlice bits 300 600) (bits.getD 299 false)
      10).2 = bits.getD 599 false := by
    have := hgen 300 600 (bits.getD 299 false) (by norm_num) (by norm_num)
    simpa using this
  have c2 : (correctWords (bitSlice bits 600 900) (bits.getD 599 false)
      10).2 = bits.getD 899 false := by
    have := hgen 600 900 (bits.getD 599 false) (by norm_num) (by norm_num)
    simpa using this
  have c3 : (correctWords (bitSlice bits 900 1200) (bits.getD 899 false)
      10).2 = bits.getD 1199 false := by
    have := hgen 900 1200 (bits.getD 899 false) (by norm_num) (by norm_num)
    simpa using this
  have hfinal : (ephLoop (ephSubframes bits) ephInit d).2 =
      (correctWords (bitSlice bits 1200 1500) (bits.getD 1199 d) 10).1 := by
    rw [hcomp, c0, c1, c2, c3, getD_irrel bits 1199 (by omega) false d]
  constructor
  · show (binToNat (bitSlice (ephLoop (ephSubframes bits) ephInit d).2
      30 47) : ℤ) * 6 - 30 = (howTowLast bits d : ℤ) * 6 - 30
    rw [hfinal]
    rfl
  · show some ((binToNat (bitSlice (ephLoop (ephSubframes bits) ephInit d).2
      30 47) : ℤ) * 6 - 30) = some ((howTowLast bits d : ℤ) * 6 - 30)
    rw [hfinal]
    rfl

/-- Claim C6 witness: the TOW relation at the all-zero 1500-bit input. -/
theorem ephemeris_TOW_eq_witness :
    (ephemeris (List.replicate 1500 false) false).2 =
      (howTowLast (List.replicate 1500 false) false : ℤ) * 6 - 30 ∧
    (ephemeris (List.replicate 1500 false) false).1.TOW =
      some ((howTowLast (List.replicate 1500 false) false : ℤ) * 6 - 30) :=
  ephemeris_TOW_eq (List.replicate 1500 false) false
    (by rw [List.length_replicate])

end CuGnss
